import Mathlib

/-
Verification of the cpp_datetime library (namespaces `dt` and `zuu`).

The embedding below translates the C++ sources:
  * calendar utilities and validators shared by all headers
    (`is_leap_year`, `days_in_month`, `days_since_epoch`, the
    `DAYS_PER_MONTH` / `CUMULATIVE_DAYS` tables, `is_valid_date`,
    `is_valid_time`, the unit constants),
  * `dt::Date` from date.hpp (validated construction, `day_of_week`,
    `day_of_year`, `week_number`, `add_days`, `add_months`, `add_years`,
    `days_between`),
  * `dt::Time` from time.hpp (nanosecond elapsed count, accessors,
    `from_seconds`, `add_seconds/minutes/hours/milliseconds/nanoseconds`),
  * `zuu::DateTime` from datetime_core.hpp (composition of Date and Time,
    `add_seconds/minutes/hours`, `from_unix_timestamp`, `to_unix_timestamp`).

Machine-integer conventions: C++ `int`, `int32_t`, `int64_t` are modelled
as unbounded `Int`; C++ `/` and `%` on signed integers truncate toward
zero, which is `Int.tdiv` / `Int.tmod` here.  The `uint64_t` elapsed count
of `dt::Time` is modelled as an `Int` together with the class invariant
`0 ≤ nanos < NANOS_PER_DAY` (`Time.valid`); under that invariant every
operation of the source stays inside `[0, 2^64)`, so no wraparound is
lost by this choice.  The `while` loops of `Date::add_days` are modelled
with an explicit fuel parameter that is provably large enough (lemmas
`addDaysUp_spec` / `addDaysDown_spec` show the loops reach their exit
condition strictly before the fuel runs out).

Throwing constructors are modelled as `Option`-returning smart
constructors (`Date.mk?`, `Time.mk?`, `DateTime.mk?`): `none` is the
`InvalidComponent` condition (`std::out_of_range` in the source).
-/

namespace dt

/-- Seconds per minute (datetime_config constants, also duplicated in the
embedded single-header `dt` implementation inside datetime_core.hpp). -/
def SECONDS_PER_MINUTE : Int := 60

/-- Seconds per hour. -/
def SECONDS_PER_HOUR : Int := 3600

/-- Seconds per day. -/
def SECONDS_PER_DAY : Int := 86400

/-- Nanoseconds per second. -/
def NANOS_PER_SECOND : Int := 1000000000

/-- Nanoseconds per millisecond. -/
def NANOS_PER_MILLISECOND : Int := 1000000

/-- Nanoseconds per microsecond. -/
def NANOS_PER_MICROSECOND : Int := 1000

/-- Nanoseconds per minute. -/
def NANOS_PER_MINUTE : Int := 60000000000

/-- Nanoseconds per hour. -/
def NANOS_PER_HOUR : Int := 3600000000000

/-- Nanoseconds per day. -/
def NANOS_PER_DAY : Int := 86400000000000

/-- Smallest representable year. -/
def MIN_YEAR : Int := 1

/-- Largest representable year. -/
def MAX_YEAR : Int := 9999

/-- `dt::is_leap_year`: divisible by 400, or divisible by 4 and not by 100.
C++ `%` is truncating remainder, hence `Int.tmod`. -/
def is_leap_year (year : Int) : Bool :=
  year.tmod 400 == 0 || (year.tmod 4 == 0 && year.tmod 100 != 0)

/-- The `detail::DAYS_PER_MONTH` table, index 0 = January. Out-of-range
indices give 0 (never reached through `days_in_month`). -/
def DAYS_PER_MONTH (i : Int) : Int :=
  if i = 0 then 31 else if i = 1 then 28 else if i = 2 then 31
  else if i = 3 then 30 else if i = 4 then 31 else if i = 5 then 30
  else if i = 6 then 31 else if i = 7 then 31 else if i = 8 then 30
  else if i = 9 then 31 else if i = 10 then 30 else if i = 11 then 31
  else 0

/-- `dt::days_in_month`: table lookup, February special-cased on leap
years, 0 for an invalid month. -/
def days_in_month (month year : Int) : Int :=
  if month < 1 ∨ month > 12 then 0
  else if month ≠ 2 then DAYS_PER_MONTH (month - 1)
  else if is_leap_year year then 29 else 28

/-- The `detail::CUMULATIVE_DAYS` table: days before the start of each
month in a non-leap year, index 0 = January (0), index 12 = 365. -/
def CUMULATIVE_DAYS (i : Int) : Int :=
  if i = 0 then 0 else if i = 1 then 31 else if i = 2 then 59
  else if i = 3 then 90 else if i = 4 then 120 else if i = 5 then 151
  else if i = 6 then 181 else if i = 7 then 212 else if i = 8 then 243
  else if i = 9 then 273 else if i = 10 then 304 else if i = 11 then 334
  else if i = 12 then 365 else 0

/-- `dt::days_since_epoch`: days from 0001-01-01 to January 1 of `year`,
with C++ truncating division (the argument is nonnegative at every call
site reached from a valid date). -/
def days_since_epoch (year : Int) : Int :=
  (year - 1) * 365 + (year - 1).tdiv 4 - (year - 1).tdiv 100 + (year - 1).tdiv 400

/-- `is_valid_date` validator: year in [1,9999], month in [1,12], day in
[1, days_in_month]. -/
def is_valid_date (y m d : Int) : Bool :=
  decide (1 ≤ y ∧ y ≤ 9999 ∧ 1 ≤ m ∧ m ≤ 12 ∧ 1 ≤ d ∧ d ≤ days_in_month m y)

/-- `is_valid_time` validator: hour in [0,24), minute in [0,60), second in
[0,60), nanosecond in [0, NANOS_PER_SECOND). -/
def is_valid_time (h mn s ns : Int) : Bool :=
  decide (0 ≤ h ∧ h < 24 ∧ 0 ≤ mn ∧ mn < 60 ∧ 0 ≤ s ∧ s < 60 ∧
          0 ≤ ns ∧ ns < NANOS_PER_SECOND)

/-- `dt::Date`: a (year, month, day) triple.  The C++ class stores
uint16/uint8 fields but computes with `int`, so the fields are `Int`. -/
structure Date where
  year : Int
  month : Int
  day : Int
deriving DecidableEq

/-- The class invariant of `dt::Date`: the stored triple passes
`is_valid_date`. -/
def Date.valid (x : Date) : Bool :=
  is_valid_date x.year x.month x.day

/-- The throwing constructor `Date::Date(int,int,int)`: `none` models the
`InvalidComponent` (`std::out_of_range`) condition. -/
def Date.mk? (y m d : Int) : Option Date :=
  if is_valid_date y m d then some ⟨y, m, d⟩ else none

/-- `Date::day_of_week` (Zeller's congruence with the source's final
`(h + 6) % 7` conversion step). -/
def Date.day_of_week (x : Date) : Int :=
  let y := if x.month < 3 then x.year - 1 else x.year
  let m := if x.month < 3 then x.month + 12 else x.month
  let q := x.day
  let k := y.tmod 100
  let j := y.tdiv 100
  let h := (q + (13 * (m + 1)).tdiv 5 + k + k.tdiv 4 + j.tdiv 4 - 2 * j).tmod 7
  (h + 6).tmod 7

/-- `Date::day_of_year`: cumulative table plus day, +1 after February in a
leap year. -/
def Date.day_of_year (x : Date) : Int :=
  CUMULATIVE_DAYS (x.month - 1) + x.day +
    (if 2 < x.month ∧ is_leap_year x.year = true then 1 else 0)

/-- Loop state of `Date::add_days`: the local `int y, m, d` variables. -/
structure Ymd where
  y : Int
  m : Int
  d : Int
deriving DecidableEq

/-- First `while` loop of `Date::add_days` (`while (d > days_in_month(m,y))`),
with explicit fuel.  Each iteration subtracts the current month's length
and steps the month, wrapping the year upward past December. -/
def addDaysUp : Nat → Ymd → Ymd
  | 0, s => s
  | fuel + 1, s =>
    if days_in_month s.m s.y < s.d then
      if 12 < s.m + 1 then
        addDaysUp fuel ⟨s.y + 1, 1, s.d - days_in_month s.m s.y⟩
      else
        addDaysUp fuel ⟨s.y, s.m + 1, s.d - days_in_month s.m s.y⟩
    else s

/-- Second `while` loop of `Date::add_days` (`while (d < 1)`), with
explicit fuel.  Each iteration steps the month downward (wrapping the
year below January) and adds the new month's length. -/
def addDaysDown : Nat → Ymd → Ymd
  | 0, s => s
  | fuel + 1, s =>
    if s.d < 1 then
      if s.m - 1 < 1 then
        addDaysDown fuel ⟨s.y - 1, 12, s.d + days_in_month 12 (s.y - 1)⟩
      else
        addDaysDown fuel ⟨s.y, s.m - 1, s.d + days_in_month (s.m - 1) s.y⟩
    else s

/-- `Date::add_days`: early-return on 0, run both normalization loops,
then assign the result only if it passes `is_valid_date` (otherwise the
date is left unchanged).  The fuel bounds are provably larger than the
number of loop iterations. -/
def Date.add_days (x : Date) (days : Int) : Date :=
  if days = 0 then x
  else
    let s0 : Ymd := ⟨x.year, x.month, x.day + days⟩
    let s1 := addDaysUp (s0.d.toNat + 1) s0
    let s2 := addDaysDown ((1 - s1.d).toNat + 1) s1
    if is_valid_date s2.y s2.m s2.d then ⟨s2.y, s2.m, s2.d⟩ else x

/-- `Date::add_months`: absolute month index with C++ truncating `/` and
`%`, sequential clamps of the year to [MIN_YEAR, MAX_YEAR], day clamp to
the target month's length, and assignment only if the result passes
`is_valid_date`. -/
def Date.add_months (x : Date) (months : Int) : Date :=
  if months = 0 then x
  else
    let total_months := (x.year - 1) * 12 + (x.month - 1) + months
    let new_year0 := total_months.tdiv 12 + 1
    let new_month := total_months.tmod 12 + 1
    let new_year1 := if new_year0 < MIN_YEAR then MIN_YEAR else new_year0
    let new_year := if new_year1 > MAX_YEAR then MAX_YEAR else new_year1
    let max_day := days_in_month new_month new_year
    let new_day := if x.day > max_day then max_day else x.day
    if is_valid_date new_year new_month new_day then
      ⟨new_year, new_month, new_day⟩
    else x

/-- `Date::add_years`: delegates to `add_months(years * 12)`. -/
def Date.add_years (x : Date) (years : Int) : Date :=
  x.add_months (years * 12)

/-- `Date::days_between`: difference of `days_since_epoch(year) +
day_of_year - 1` values, positive when `x` is later. -/
def Date.days_between (x other : Date) : Int :=
  (days_since_epoch x.year + x.day_of_year - 1) -
    (days_since_epoch other.year + other.day_of_year - 1)

/-- The body of `Date::week_number` before the fold rules: raw week index
from the day of year and the weekday of January 1. -/
def Date.raw_week (x : Date) : Int :=
  let jan1 : Date := ⟨x.year, 1, 1⟩
  let dow_jan1 := jan1.day_of_week
  let doy := x.day_of_year
  let week := (doy + dow_jan1 - 1).tdiv 7
  if dow_jan1 ≤ 3 then week + 1 else week

/-- `Date::week_number` with explicit fuel for its self-recursion (the
week-0 fold recurses on December 31 of the previous year; from any valid
date that recursion runs at most once, so the fuel — the year itself —
never runs out). -/
def Date.week_number_aux : Nat → Date → Int
  | 0, x => x.raw_week
  | fuel + 1, x =>
    let week := x.raw_week
    if week = 0 then
      Date.week_number_aux fuel ⟨x.year - 1, 12, 31⟩
    else if week = 53 then
      let next_jan1 : Date := ⟨x.year + 1, 1, 1⟩
      if next_jan1.day_of_week ≤ 3 then 1 else week
    else week

/-- `Date::week_number` (ISO 8601 week with the source's fold rules). -/
def Date.week_number (x : Date) : Int :=
  Date.week_number_aux x.year.toNat x

/-- `dt::Time`: nanoseconds elapsed since midnight.  The source stores a
`uint64_t`; modelled as `Int` plus the `Time.valid` invariant. -/
structure Time where
  nanos : Int
deriving DecidableEq

/-- The class invariant of `dt::Time`: elapsed count inside one day. -/
def Time.valid (t : Time) : Bool :=
  decide (0 ≤ t.nanos ∧ t.nanos < NANOS_PER_DAY)

/-- Component-combining step of the `Time(h, min, s, ns)` constructor. -/
def Time.ofHMS (h mn s ns : Int) : Time :=
  ⟨h * NANOS_PER_HOUR + mn * NANOS_PER_MINUTE + s * NANOS_PER_SECOND + ns⟩

/-- The throwing constructor `Time::Time(int,int,int,int)`: `none` models
the `InvalidComponent` (`std::out_of_range`) condition. -/
def Time.mk? (h mn s ns : Int) : Option Time :=
  if is_valid_time h mn s ns then some (Time.ofHMS h mn s ns) else none

/-- `Time::hour`. -/
def Time.hour (t : Time) : Int := t.nanos / NANOS_PER_HOUR

/-- `Time::minute`. -/
def Time.minute (t : Time) : Int := t.nanos % NANOS_PER_HOUR / NANOS_PER_MINUTE

/-- `Time::second`. -/
def Time.second (t : Time) : Int := t.nanos % NANOS_PER_MINUTE / NANOS_PER_SECOND

/-- `Time::nanosecond`. -/
def Time.nanosecond (t : Time) : Int := t.nanos % NANOS_PER_SECOND

/-- `Time::millisecond`. -/
def Time.millisecond (t : Time) : Int :=
  t.nanos % NANOS_PER_SECOND / NANOS_PER_MILLISECOND

/-- `Time::microsecond`. -/
def Time.microsecond (t : Time) : Int :=
  t.nanos % NANOS_PER_SECOND / NANOS_PER_MICROSECOND

/-- `Time::total_seconds`. -/
def Time.total_seconds (t : Time) : Int := t.nanos / NANOS_PER_SECOND

/-- `Time::from_seconds`: truncating remainder modulo one day followed by
the negative-adjustment branch, then scaled to nanoseconds. -/
def Time.from_seconds (seconds : Int) : Time :=
  let s1 := seconds.tmod SECONDS_PER_DAY
  let s2 := if s1 < 0 then s1 + SECONDS_PER_DAY else s1
  ⟨s2 * NANOS_PER_SECOND⟩

/-- `Time::add_seconds`: truncating remainder of the summed seconds
modulo one day, negative adjustment, sub-second part re-attached. -/
def Time.add_seconds (t : Time) (seconds : Int) : Time :=
  let t1 := (t.total_seconds + seconds).tmod SECONDS_PER_DAY
  let t2 := if t1 < 0 then t1 + SECONDS_PER_DAY else t1
  ⟨t2 * NANOS_PER_SECOND + t.nanos % NANOS_PER_SECOND⟩

/-- `Time::add_minutes`: delegates to `add_seconds`. -/
def Time.add_minutes (t : Time) (minutes : Int) : Time :=
  t.add_seconds (minutes * SECONDS_PER_MINUTE)

/-- `Time::add_hours`: delegates to `add_seconds`. -/
def Time.add_hours (t : Time) (hours : Int) : Time :=
  t.add_seconds (hours * SECONDS_PER_HOUR)

/-- `Time::add_milliseconds`: nanosecond-level truncating remainder
modulo one day with negative adjustment. -/
def Time.add_milliseconds (t : Time) (milliseconds : Int) : Time :=
  let n1 := (t.nanos + milliseconds * NANOS_PER_MILLISECOND).tmod NANOS_PER_DAY
  let n2 := if n1 < 0 then n1 + NANOS_PER_DAY else n1
  ⟨n2⟩

/-- `Time::add_nanoseconds`: nanosecond-level truncating remainder modulo
one day with negative adjustment. -/
def Time.add_nanoseconds (t : Time) (nanoseconds : Int) : Time :=
  let n1 := (t.nanos + nanoseconds).tmod NANOS_PER_DAY
  let n2 := if n1 < 0 then n1 + NANOS_PER_DAY else n1
  ⟨n2⟩

end dt

namespace zuu

/-- `zuu::DateTime` (datetime_core.hpp): a Date plus a Time. -/
structure DateTime where
  date : dt.Date
  time : dt.Time
deriving DecidableEq

/-- The componentwise throwing constructor of `zuu::DateTime`; it
delegates validation to the Date and Time constructors. -/
def DateTime.mk? (y mo d h mn s ns : Int) : Option DateTime :=
  match dt.Date.mk? y mo d, dt.Time.mk? h mn s ns with
  | some a, some b => some ⟨a, b⟩
  | _, _ => none

/-- `DateTime::nanosecond` convenience accessor. -/
def DateTime.nanosecond (x : DateTime) : Int := x.time.nanosecond

/-- The `day_overflow` local of `DateTime::add_seconds`: the source's
two-branch truncating-division formula for whole days crossed. -/
def DateTime.dayOverflow (total_secs : Int) : Int :=
  if dt.SECONDS_PER_DAY ≤ total_secs then total_secs.tdiv dt.SECONDS_PER_DAY
  else if total_secs < 0 then
    (total_secs - dt.SECONDS_PER_DAY + 1).tdiv dt.SECONDS_PER_DAY
  else 0

/-- The remaining-seconds local of `DateTime::add_seconds` after the
overflow has been split off. -/
def DateTime.remainingSecs (total_secs : Int) : Int :=
  if dt.SECONDS_PER_DAY ≤ total_secs then total_secs.tmod dt.SECONDS_PER_DAY
  else if total_secs < 0 then
    total_secs - DateTime.dayOverflow total_secs * dt.SECONDS_PER_DAY
  else total_secs

/-- `DateTime::add_seconds`: add to the time-of-day's linear seconds,
compute the day overflow with the source's two-branch truncating-division
formulas, push the overflow into the date via `add_days` (only when it is
nonzero, as in the source), and rebuild the time from the remainder while
re-attaching the nanosecond part. -/
def DateTime.add_seconds (x : DateTime) (seconds : Int) : DateTime :=
  if seconds = 0 then x
  else
    ⟨if DateTime.dayOverflow (x.time.total_seconds + seconds) ≠ 0 then
        x.date.add_days (DateTime.dayOverflow (x.time.total_seconds + seconds))
      else x.date,
     (dt.Time.from_seconds
        (DateTime.remainingSecs (x.time.total_seconds + seconds))).add_nanoseconds
       x.time.nanosecond⟩

/-- `DateTime::add_minutes`: delegates to `add_seconds`. -/
def DateTime.add_minutes (x : DateTime) (minutes : Int) : DateTime :=
  x.add_seconds (minutes * dt.SECONDS_PER_MINUTE)

/-- `DateTime::add_hours`: delegates to `add_seconds`. -/
def DateTime.add_hours (x : DateTime) (hours : Int) : DateTime :=
  x.add_seconds (hours * dt.SECONDS_PER_HOUR)

/-- `DateTime::from_unix_timestamp`: truncating divide into days and
remainder, adjust both when the remainder is negative, step the epoch
date and build the time from the remainder. -/
def DateTime.from_unix_timestamp (seconds : Int) : DateTime :=
  let epoch : dt.Date := ⟨1970, 1, 1⟩
  let days0 := seconds.tdiv dt.SECONDS_PER_DAY
  let rem0 := seconds.tmod dt.SECONDS_PER_DAY
  let days := if rem0 < 0 then days0 - 1 else days0
  let rem := if rem0 < 0 then rem0 + dt.SECONDS_PER_DAY else rem0
  ⟨epoch.add_days days, dt.Time.from_seconds rem⟩

/-- `DateTime::to_unix_timestamp`: day difference to 1970-01-01 times
SECONDS_PER_DAY plus the time-of-day's seconds. -/
def DateTime.to_unix_timestamp (x : DateTime) : Int :=
  let epoch : dt.Date := ⟨1970, 1, 1⟩
  x.date.days_between epoch * dt.SECONDS_PER_DAY + x.time.total_seconds

end zuu

/-- Ghost function (proof artifact, not in the source): days from
0001-01-01 to January 1 of `year`, as a floor-division closed form that
is total over all integers.  Agrees with `dt.days_since_epoch` on every
year ≥ 1. -/
def dseF (year : Int) : Int :=
  (year - 1) * 365 + (year - 1) / 4 - (year - 1) / 100 + (year - 1) / 400

/-- Ghost function: days of year `y` that precede the start of month `m`
(meaningful for `m` in [1,13]; `cumStart 13 y` is the length of the year). -/
def cumStart (m y : Int) : Int :=
  dt.CUMULATIVE_DAYS (m - 1) +
    (if 2 < m ∧ dt.is_leap_year y = true then 1 else 0)

/-- Ghost function: the absolute day index of a (possibly mid-loop)
(year, month, day) triple; 0001-01-01 has index 0. -/
def absN (y m d : Int) : Int :=
  dseF y + cumStart m y + d - 1

/-- Ghost function: `absN` on a `Date`. -/
def dt.Date.absIdx (x : dt.Date) : Int := absN x.year x.month x.day

/-- The absolute day index of 9999-12-31, the largest valid date. -/
def maxAbsIdx : Int := 3652058

/-- Modelled from the claim's words (C4), for refinement comparison with
the source's `Date::add_months`: compute the absolute month index
`(year-1)*12 + (month-1) + n`, decompose it back into a year and a month
in [1,12] (floor division), clamp the year into [1,9999], and clamp the
day down to the target month's length when it would overflow. -/
def add_months_claim (x : dt.Date) (n : Int) : dt.Date :=
  let total := (x.year - 1) * 12 + (x.month - 1) + n
  let y0 := total / 12 + 1
  let m := total % 12 + 1
  let y1 := if y0 < dt.MIN_YEAR then dt.MIN_YEAR else y0
  let y := if y1 > dt.MAX_YEAR then dt.MAX_YEAR else y1
  let d := if x.day > dt.days_in_month m y then dt.days_in_month m y else x.day
  ⟨y, m, d⟩

/-- Lower bound for the truncating remainder with a positive divisor. -/
theorem tmod_lower_bound (a b : Int) (hb : 0 < b) : -b < a.tmod b := by
  rcases le_or_lt 0 a with ha | ha
  · have h := Int.tmod_nonneg b ha
    linarith
  · have hneg : a.tmod b = -((-a).tmod b) := by
      rw [Int.tmod_def, Int.tmod_def, Int.neg_tdiv]
      ring
    have h1 : (-a).tmod b = (-a) % b := Int.tmod_eq_emod (by linarith) hb.le
    have h2 : (-a) % b < b := Int.emod_lt_of_pos _ hb
    rw [hneg, h1]
    linarith

/-- The source's truncate-then-adjust idiom computes floor division and
floor remainder: for a positive divisor, decrementing the truncated
quotient and shifting the truncated remainder up by the divisor exactly
when that remainder is negative gives `Int.ediv` / `Int.emod`. -/
theorem tdiv_tmod_floor (a b : Int) (hb : 0 < b) :
    (if a.tmod b < 0 then a.tdiv b - 1 else a.tdiv b) = a / b ∧
    (if a.tmod b < 0 then a.tmod b + b else a.tmod b) = a % b := by
  have h1 := Int.tdiv_add_tmod a b
  have h5 := Int.tmod_lt_of_pos a hb
  have h6 := tmod_lower_bound a b hb
  by_cases hc : a.tmod b < 0
  · have h := (@Int.ediv_emod_unique a b (a.tmod b + b) (a.tdiv b - 1) hb).mpr
      ⟨by linear_combination h1, by linarith, by linarith⟩
    rw [if_pos hc, if_pos hc]
    exact ⟨h.1.symm, h.2.symm⟩
  · push_neg at hc
    have h := (@Int.ediv_emod_unique a b (a.tmod b) (a.tdiv b) hb).mpr
      ⟨by linear_combination h1, hc, h5⟩
    rw [if_neg (not_lt.mpr hc), if_neg (not_lt.mpr hc)]
    exact ⟨h.1.symm, h.2.symm⟩

/-- The `(t - D + 1) / D` truncating-division idiom used by
`DateTime::add_seconds` on a negative total equals floor division. -/
theorem neg_branch_tdiv (t b : Int) (hb : 0 < b) (ht : t < 0) :
    (t - b + 1).tdiv b = t / b := by
  have h2 := Int.ediv_add_emod t b
  have hr0 : 0 ≤ t % b := Int.emod_nonneg t (by linarith)
  have hrb : t % b < b := Int.emod_lt_of_pos t hb
  have h3 : (t - b + 1).tdiv b = -((b - 1 - t).tdiv b) := by
    rw [← Int.neg_tdiv]
    congr 1
    ring
  rw [show (b - 1 - t).tdiv b = (b - 1 - t) / b from
        Int.tdiv_eq_ediv (by linarith) hb.le] at h3
  have h4 : (b - 1 - t) / b = -(t / b) := by
    have h := (@Int.ediv_emod_unique (b - 1 - t) b (b - 1 - t % b) (-(t / b)) hb).mpr
      ⟨by linear_combination -h2, by linarith, by linarith⟩
    exact h.1
  rw [h3, h4, neg_neg]

/-- The leap-year test in divisibility form. -/
theorem is_leap_year_iff (y : Int) :
    dt.is_leap_year y = true ↔ (400 ∣ y ∨ (4 ∣ y ∧ ¬(100 ∣ y))) := by
  unfold dt.is_leap_year
  rw [Bool.or_eq_true, Bool.and_eq_true, beq_iff_eq, beq_iff_eq, bne_iff_ne]
  rw [← Int.dvd_iff_tmod_eq_zero, ← Int.dvd_iff_tmod_eq_zero]
  constructor
  · rintro (h | ⟨h1, h2⟩)
    · exact Or.inl h
    · exact Or.inr ⟨h1, fun hd => h2 (Int.tmod_eq_zero_of_dvd hd)⟩
  · rintro (h | ⟨h1, h2⟩)
    · exact Or.inl h
    · exact Or.inr ⟨h1, fun hd => h2 (Int.dvd_of_tmod_eq_zero hd)⟩

/-- One-year step of the ghost `dseF`: a year contributes 365 days plus
one more exactly when it is a leap year. -/
theorem dseF_succ (y : Int) :
    dseF (y + 1) = dseF y + 365 + (if dt.is_leap_year y = true then 1 else 0) := by
  have h4 : y / 4 - (y - 1) / 4 = if (4:Int) ∣ y then 1 else 0 := by
    split <;> omega
  have h100 : y / 100 - (y - 1) / 100 = if (100:Int) ∣ y then 1 else 0 := by
    split <;> omega
  have h400 : y / 400 - (y - 1) / 400 = if (400:Int) ∣ y then 1 else 0 := by
    split <;> omega
  by_cases hl : dt.is_leap_year y = true
  · rw [if_pos hl]
    rw [is_leap_year_iff] at hl
    unfold dseF
    rcases hl with h | ⟨h1, h2⟩ <;>
      [skip; skip] <;>
      first
        | (have ha : (4:Int) ∣ y := dvd_trans (by norm_num) h
           have hb2 : (100:Int) ∣ y := dvd_trans (by norm_num) h
           rw [if_pos ha] at h4
           rw [if_pos hb2] at h100
           rw [if_pos h] at h400
           omega)
        | (have hn400 : ¬(400:Int) ∣ y := fun hd => h2 (dvd_trans (by norm_num) hd)
           rw [if_pos h1] at h4
           rw [if_neg h2] at h100
           rw [if_neg hn400] at h400
           omega)
  · rw [if_neg hl]
    rw [is_leap_year_iff] at hl
    push_neg at hl
    obtain ⟨hn400, hl2⟩ := hl
    unfold dseF
    by_cases h1 : (4:Int) ∣ y
    · have h2 := hl2 h1
      rw [if_pos h1] at h4
      rw [if_pos h2] at h100
      rw [if_neg hn400] at h400
      omega
    · have hn100 : ¬(100:Int) ∣ y := fun hd => h1 (dvd_trans (by norm_num) hd)
      rw [if_neg h1] at h4
      rw [if_neg hn100] at h100
      rw [if_neg hn400] at h400
      omega

/-- Unfolding of the date validator into its component ranges. -/
theorem is_valid_date_iff (y m d : Int) :
    dt.is_valid_date y m d = true ↔
      1 ≤ y ∧ y ≤ 9999 ∧ 1 ≤ m ∧ m ≤ 12 ∧ 1 ≤ d ∧ d ≤ dt.days_in_month m y := by
  simp [dt.is_valid_date]

/-- Unfolding of the time validator into its component ranges. -/
theorem is_valid_time_iff (h mn s ns : Int) :
    dt.is_valid_time h mn s ns = true ↔
      0 ≤ h ∧ h < 24 ∧ 0 ≤ mn ∧ mn < 60 ∧ 0 ≤ s ∧ s < 60 ∧
      0 ≤ ns ∧ ns < dt.NANOS_PER_SECOND := by
  simp [dt.is_valid_time]

/-- Every real month has between 28 and 31 days, for any year. -/
theorem days_in_month_bounds (m y : Int) (h1 : 1 ≤ m) (h2 : m ≤ 12) :
    28 ≤ dt.days_in_month m y ∧ dt.days_in_month m y ≤ 31 := by
  interval_cases m <;> cases hl : dt.is_leap_year y <;>
    simp [dt.days_in_month, dt.DAYS_PER_MONTH, hl]

/-- The cumulative-days table steps by exactly the month length. -/
theorem cumStart_step (m y : Int) (h1 : 1 ≤ m) (h2 : m ≤ 12) :
    cumStart (m + 1) y = cumStart m y + dt.days_in_month m y := by
  interval_cases m <;> cases hl : dt.is_leap_year y <;>
    simp [cumStart, dt.CUMULATIVE_DAYS, dt.days_in_month, dt.DAYS_PER_MONTH, hl]

/-- `cumStart 13` is the length of the year. -/
theorem cumStart_year (y : Int) :
    cumStart 13 y = 365 + (if dt.is_leap_year y = true then 1 else 0) := by
  cases hl : dt.is_leap_year y <;> simp [cumStart, dt.CUMULATIVE_DAYS, hl]

/-- January is preceded by no days. -/
theorem cumStart_one (y : Int) : cumStart 1 y = 0 := by
  simp [cumStart, dt.CUMULATIVE_DAYS]

/-- The cumulative-days table is nonnegative on meaningful indices. -/
theorem cumStart_nonneg (m y : Int) (h1 : 1 ≤ m) (h2 : m ≤ 13) :
    0 ≤ cumStart m y := by
  interval_cases m <;> cases hl : dt.is_leap_year y <;>
    simp [cumStart, dt.CUMULATIVE_DAYS, hl]

/-- Strict growth of the cumulative-days table: a whole month fits
between consecutive month starts. -/
theorem cumStart_add_le (m1 m2 y : Int) (h1 : 1 ≤ m1) (h12 : m1 < m2)
    (h2 : m2 ≤ 13) :
    cumStart m1 y + dt.days_in_month m1 y ≤ cumStart m2 y := by
  have base : cumStart m1 y + dt.days_in_month m1 y = cumStart (m1 + 1) y :=
    (cumStart_step m1 y h1 (by omega)).symm
  have H : ∀ n : Int, m1 + 1 ≤ n → (n ≤ 13 → cumStart (m1 + 1) y ≤ cumStart n y) := by
    intro n
    refine @Int.le_induction
      (fun k => k ≤ 13 → cumStart (m1 + 1) y ≤ cumStart k y) (m1 + 1) ?_ ?_ n
    · intro
      exact le_refl _
    · intro k hk ih hk13
      have hb := days_in_month_bounds k y (by omega) (by omega)
      rw [cumStart_step k y (by omega) (by omega)]
      have := ih (by omega)
      linarith
  have := H m2 (by omega) h2
  linarith

/-- The sub-year day index of a semi-normalized triple lies inside the
year. -/
theorem dayIdx_bounds (y m d : Int) (h1 : 1 ≤ m) (h2 : m ≤ 12) (h3 : 1 ≤ d)
    (h4 : d ≤ dt.days_in_month m y) :
    0 ≤ cumStart m y + d - 1 ∧
      cumStart m y + d - 1 ≤ 364 + (if dt.is_leap_year y = true then 1 else 0) := by
  constructor
  · have := cumStart_nonneg m y h1 (by omega)
    linarith
  · have hle : cumStart m y + dt.days_in_month m y ≤ cumStart 13 y := by
      rcases eq_or_lt_of_le h2 with he | hlt
      · subst he
        have h := cumStart_step 12 y (by norm_num) (by norm_num)
        norm_num at h
        linarith
      · exact cumStart_add_le m 13 y h1 (by omega) (le_refl 13)
    have h13 := cumStart_year y
    cases hl : dt.is_leap_year y <;> simp [hl] at h13 ⊢ <;> linarith

/-- Base value of the ghost day count. -/
theorem dseF_one : dseF 1 = 0 := by norm_num [dseF]

/-- Value of the ghost day count just past the largest year. -/
theorem dseF_10000 : dseF 10000 = 3652059 := by norm_num [dseF]

/-- `dseF` is monotone. -/
theorem dseF_mono {a b : Int} (h : a ≤ b) : dseF a ≤ dseF b := by
  have H : ∀ n : Int, a ≤ n → dseF a ≤ dseF n := by
    intro n
    refine @Int.le_induction (fun k => dseF a ≤ dseF k) a (le_refl _) ?_ n
    intro k hk ih
    have hs := dseF_succ k
    by_cases hl : dt.is_leap_year k = true
    · rw [if_pos hl] at hs
      linarith
    · rw [if_neg hl] at hs
      linarith
  exact H b h

/-- A semi-normalized triple's absolute index lies inside its year. -/
theorem absN_in_year (y m d : Int) (h1 : 1 ≤ m) (h2 : m ≤ 12) (h3 : 1 ≤ d)
    (h4 : d ≤ dt.days_in_month m y) :
    dseF y ≤ absN y m d ∧ absN y m d < dseF (y + 1) := by
  have hb := dayIdx_bounds y m d h1 h2 h3 h4
  have hs := dseF_succ y
  unfold absN
  constructor
  · linarith [hb.1]
  · by_cases hl : dt.is_leap_year y = true
    · rw [if_pos hl] at hb hs
      linarith [hb.2]
    · rw [if_neg hl] at hb hs
      linarith [hb.2]

/-- For a semi-normalized triple, passing the validator is the same as
the absolute index lying in the representable range [0, maxAbsIdx]. -/
theorem semi_valid_iff_range (y m d : Int) (h1 : 1 ≤ m) (h2 : m ≤ 12)
    (h3 : 1 ≤ d) (h4 : d ≤ dt.days_in_month m y) :
    dt.is_valid_date y m d = true ↔
      0 ≤ absN y m d ∧ absN y m d ≤ maxAbsIdx := by
  have hr := absN_in_year y m d h1 h2 h3 h4
  rw [is_valid_date_iff]
  unfold maxAbsIdx
  constructor
  · rintro ⟨hy1, hy2, -⟩
    have mono1 : dseF 1 ≤ dseF y := dseF_mono hy1
    have mono2 : dseF (y + 1) ≤ dseF 10000 := dseF_mono (by omega)
    rw [dseF_one] at mono1
    rw [dseF_10000] at mono2
    constructor
    · linarith [hr.1]
    · have : absN y m d < 3652059 := by linarith [hr.2]
      omega
  · rintro ⟨hge, hle⟩
    have hy1 : 1 ≤ y := by
      by_contra hcon
      push_neg at hcon
      have mono : dseF (y + 1) ≤ dseF 1 := dseF_mono (by omega)
      rw [dseF_one] at mono
      linarith [hr.2]
    have hy2 : y ≤ 9999 := by
      by_contra hcon
      push_neg at hcon
      have mono : dseF 10000 ≤ dseF y := dseF_mono (by omega)
      rw [dseF_10000] at mono
      linarith [hr.1]
    exact ⟨hy1, hy2, h1, h2, h3, h4⟩

/-- Shifting the day coordinate shifts the absolute index. -/
theorem absN_shift (y m d n : Int) : absN y m (d + n) = absN y m d + n := by
  unfold absN
  ring

/-- Month-step invariant of the forward loop (non-December case). -/
theorem absN_up_step (y m d : Int) (h1 : 1 ≤ m) (h2 : m ≤ 11) :
    absN y (m + 1) (d - dt.days_in_month m y) = absN y m d := by
  unfold absN
  rw [cumStart_step m y h1 (by omega)]
  ring

/-- Year-wrap invariant of the forward loop (December case). -/
theorem absN_up_wrap (y d : Int) :
    absN (y + 1) 1 (d - dt.days_in_month 12 y) = absN y 12 d := by
  unfold absN
  rw [cumStart_one, dseF_succ y]
  have h13 := cumStart_year y
  have h12 := cumStart_step 12 y (by norm_num) (by norm_num)
  norm_num at h12
  cases hl : dt.is_leap_year y <;> simp [hl] at h13 ⊢ <;> linarith

/-- Month-step invariant of the backward loop (non-January case). -/
theorem absN_down_step (y m d : Int) (h1 : 2 ≤ m) (h2 : m ≤ 12) :
    absN y (m - 1) (d + dt.days_in_month (m - 1) y) = absN y m d := by
  have h := absN_up_step y (m - 1) (d + dt.days_in_month (m - 1) y) (by omega) (by omega)
  have e1 : m - 1 + 1 = m := by ring
  have e2 : d + dt.days_in_month (m - 1) y - dt.days_in_month (m - 1) y = d := by ring
  rw [e1, e2] at h
  exact h.symm

/-- Year-wrap invariant of the backward loop (January case). -/
theorem absN_down_wrap (y d : Int) :
    absN (y - 1) 12 (d + dt.days_in_month 12 (y - 1)) = absN y 1 d := by
  have h := absN_up_wrap (y - 1) (d + dt.days_in_month 12 (y - 1))
  have e1 : y - 1 + 1 = y := by ring
  have e2 : d + dt.days_in_month 12 (y - 1) - dt.days_in_month 12 (y - 1) = d := by ring
  rw [e1, e2] at h
  exact h.symm

/-- Invariant of the forward loop of `Date::add_days`: with enough fuel it
preserves the absolute index, keeps the month in range, reaches its exit
condition (day at most the month length) and keeps the day positive when
it started positive. -/
theorem addDaysUp_spec : ∀ (fuel : Nat) (s : dt.Ymd),
    1 ≤ s.m → s.m ≤ 12 → s.d ≤ (fuel : Int) →
    absN (dt.addDaysUp fuel s).y (dt.addDaysUp fuel s).m (dt.addDaysUp fuel s).d
        = absN s.y s.m s.d ∧
    1 ≤ (dt.addDaysUp fuel s).m ∧ (dt.addDaysUp fuel s).m ≤ 12 ∧
    (dt.addDaysUp fuel s).d ≤
        dt.days_in_month (dt.addDaysUp fuel s).m (dt.addDaysUp fuel s).y ∧
    (1 ≤ s.d → 1 ≤ (dt.addDaysUp fuel s).d) := by
  intro fuel
  induction fuel with
  | zero =>
    intro s h1 h2 h3
    have hb := days_in_month_bounds s.m s.y h1 h2
    simp only [dt.addDaysUp]
    norm_num at h3
    exact ⟨trivial, h1, h2, by linarith [hb.1], fun h => h⟩
  | succ n ih =>
    intro s h1 h2 h3
    have hb := days_in_month_bounds s.m s.y h1 h2
    have hcast : ((n + 1 : Nat) : Int) = (n : Int) + 1 := by push_cast; ring
    rw [hcast] at h3
    by_cases hc : dt.days_in_month s.m s.y < s.d
    · by_cases hm : 12 < s.m + 1
      · have hm12 : s.m = 12 := by omega
        have hstep : dt.addDaysUp (n + 1) s =
            dt.addDaysUp n ⟨s.y + 1, 1, s.d - dt.days_in_month s.m s.y⟩ := by
          simp only [dt.addDaysUp]
          rw [if_pos hc, if_pos hm]
        rw [hstep]
        obtain ⟨ia, i1, i2, i3, i4⟩ :=
          ih ⟨s.y + 1, 1, s.d - dt.days_in_month s.m s.y⟩ (by norm_num)
            (by norm_num) (by simp only []; linarith [hb.1])
        refine ⟨?_, i1, i2, i3, fun _ => i4 (by simp only []; linarith)⟩
        rw [ia]
        show absN (s.y + 1) 1 (s.d - dt.days_in_month s.m s.y) = absN s.y s.m s.d
        rw [hm12]
        exact absN_up_wrap s.y s.d
      · have hm11 : s.m ≤ 11 := by omega
        have hstep : dt.addDaysUp (n + 1) s =
            dt.addDaysUp n ⟨s.y, s.m + 1, s.d - dt.days_in_month s.m s.y⟩ := by
          simp only [dt.addDaysUp]
          rw [if_pos hc, if_neg hm]
        rw [hstep]
        obtain ⟨ia, i1, i2, i3, i4⟩ :=
          ih ⟨s.y, s.m + 1, s.d - dt.days_in_month s.m s.y⟩ (by simp only []; omega)
            (by simp only []; omega) (by simp only []; linarith [hb.1])
        refine ⟨?_, i1, i2, i3, fun _ => i4 (by simp only []; linarith)⟩
        rw [ia]
        exact absN_up_step s.y s.m s.d h1 hm11
    · have hstep : dt.addDaysUp (n + 1) s = s := by
        simp only [dt.addDaysUp]
        rw [if_neg hc]
      rw [hstep]
      exact ⟨rfl, h1, h2, le_of_not_lt hc, fun h => h⟩

/-- Invariant of the backward loop of `Date::add_days`: with enough fuel
it preserves the absolute index and lands on a semi-normalized triple
(month in range, day in [1, month length]). -/
theorem addDaysDown_spec : ∀ (fuel : Nat) (s : dt.Ymd),
    1 ≤ s.m → s.m ≤ 12 → s.d ≤ dt.days_in_month s.m s.y →
    1 - s.d ≤ (fuel : Int) →
    absN (dt.addDaysDown fuel s).y (dt.addDaysDown fuel s).m (dt.addDaysDown fuel s).d
        = absN s.y s.m s.d ∧
    1 ≤ (dt.addDaysDown fuel s).m ∧ (dt.addDaysDown fuel s).m ≤ 12 ∧
    1 ≤ (dt.addDaysDown fuel s).d ∧
    (dt.addDaysDown fuel s).d ≤
        dt.days_in_month (dt.addDaysDown fuel s).m (dt.addDaysDown fuel s).y := by
  intro fuel
  induction fuel with
  | zero =>
    intro s h1 h2 h3 h4
    simp only [dt.addDaysDown]
    norm_num at h4
    exact ⟨trivial, h1, h2, by linarith, h3⟩
  | succ n ih =>
    intro s h1 h2 h3 h4
    have hcast : ((n + 1 : Nat) : Int) = (n : Int) + 1 := by push_cast; ring
    rw [hcast] at h4
    by_cases hc : s.d < 1
    · by_cases hm : s.m - 1 < 1
      · have hm1 : s.m = 1 := by omega
        have hb := days_in_month_bounds 12 (s.y - 1) (by norm_num) (by norm_num)
        have hstep : dt.addDaysDown (n + 1) s =
            dt.addDaysDown n ⟨s.y - 1, 12, s.d + dt.days_in_month 12 (s.y - 1)⟩ := by
          simp only [dt.addDaysDown]
          rw [if_pos hc, if_pos hm]
        rw [hstep]
        obtain ⟨ia, i1, i2, i3, i4⟩ :=
          ih ⟨s.y - 1, 12, s.d + dt.days_in_month 12 (s.y - 1)⟩ (by norm_num)
            (by norm_num) (by simp only []; linarith) (by simp only []; linarith [hb.1])
        refine ⟨?_, i1, i2, i3, i4⟩
        rw [ia]
        show absN (s.y - 1) 12 (s.d + dt.days_in_month 12 (s.y - 1)) = absN s.y s.m s.d
        rw [hm1]
        exact absN_down_wrap s.y s.d
      · have hm2 : 2 ≤ s.m := by omega
        have hb := days_in_month_bounds (s.m - 1) s.y (by omega) (by omega)
        have hstep : dt.addDaysDown (n + 1) s =
            dt.addDaysDown n ⟨s.y, s.m - 1, s.d + dt.days_in_month (s.m - 1) s.y⟩ := by
          simp only [dt.addDaysDown]
          rw [if_pos hc, if_neg hm]
        rw [hstep]
        obtain ⟨ia, i1, i2, i3, i4⟩ :=
          ih ⟨s.y, s.m - 1, s.d + dt.days_in_month (s.m - 1) s.y⟩ (by simp only []; omega)
            (by simp only []; omega) (by simp only []; linarith) (by simp only []; linarith [hb.1])
        refine ⟨?_, i1, i2, i3, i4⟩
        rw [ia]
        exact absN_down_step s.y s.m s.d hm2 h2
    · have hstep : dt.addDaysDown (n + 1) s = s := by
        simp only [dt.addDaysDown]
        rw [if_neg hc]
      rw [hstep]
      exact ⟨rfl, h1, h2, by linarith [not_lt.mp hc], h3⟩

/-- Strict monotonicity of the absolute index with respect to the
lexicographic date order, on semi-normalized triples. -/
theorem absN_lt_of_lt (y1 m1 d1 y2 m2 d2 : Int)
    (a1 : 1 ≤ m1) (a2 : m1 ≤ 12) (a3 : 1 ≤ d1) (a4 : d1 ≤ dt.days_in_month m1 y1)
    (b1 : 1 ≤ m2) (b2 : m2 ≤ 12) (b3 : 1 ≤ d2) (b4 : d2 ≤ dt.days_in_month m2 y2)
    (hlt : y1 < y2 ∨ (y1 = y2 ∧ (m1 < m2 ∨ (m1 = m2 ∧ d1 < d2)))) :
    absN y1 m1 d1 < absN y2 m2 d2 := by
  rcases hlt with hy | ⟨rfl, hm | ⟨rfl, hd⟩⟩
  · have r1 := absN_in_year y1 m1 d1 a1 a2 a3 a4
    have r2 := absN_in_year y2 m2 d2 b1 b2 b3 b4
    have mono : dseF (y1 + 1) ≤ dseF y2 := dseF_mono (by omega)
    linarith [r1.2, r2.1]
  · have hstep := cumStart_add_le m1 m2 y1 a1 hm (by omega)
    unfold absN
    linarith
  · unfold absN
    linarith

/-- Two valid dates with the same absolute index coincide. -/
theorem absIdx_inj (a b : dt.Date) (ha : a.valid = true) (hb : b.valid = true)
    (h : a.absIdx = b.absIdx) : a = b := by
  have ha' : dt.is_valid_date a.year a.month a.day = true := ha
  have hb' : dt.is_valid_date b.year b.month b.day = true := hb
  obtain ⟨ay1, ay2, am1, am2, ad1, ad2⟩ := (is_valid_date_iff _ _ _).mp ha'
  obtain ⟨by1, by2, bm1, bm2, bd1, bd2⟩ := (is_valid_date_iff _ _ _).mp hb'
  have hy : a.year = b.year := by
    rcases lt_trichotomy a.year b.year with hy | hy | hy
    · have := absN_lt_of_lt a.year a.month a.day b.year b.month b.day
        am1 am2 ad1 ad2 bm1 bm2 bd1 bd2 (Or.inl hy)
      exact absurd h (by intro he; rw [dt.Date.absIdx, dt.Date.absIdx] at he; omega)
    · exact hy
    · have := absN_lt_of_lt b.year b.month b.day a.year a.month a.day
        bm1 bm2 bd1 bd2 am1 am2 ad1 ad2 (Or.inl hy)
      exact absurd h (by intro he; rw [dt.Date.absIdx, dt.Date.absIdx] at he; omega)
  have hm : a.month = b.month := by
    rcases lt_trichotomy a.month b.month with hm | hm | hm
    · have := absN_lt_of_lt a.year a.month a.day b.year b.month b.day
        am1 am2 ad1 ad2 bm1 bm2 bd1 bd2 (Or.inr ⟨hy, Or.inl hm⟩)
      exact absurd h (by intro he; rw [dt.Date.absIdx, dt.Date.absIdx] at he; omega)
    · exact hm
    · have := absN_lt_of_lt b.year b.month b.day a.year a.month a.day
        bm1 bm2 bd1 bd2 am1 am2 ad1 ad2 (Or.inr ⟨hy.symm, Or.inl hm⟩)
      exact absurd h (by intro he; rw [dt.Date.absIdx, dt.Date.absIdx] at he; omega)
  have hd : a.day = b.day := by
    rcases lt_trichotomy a.day b.day with hd | hd | hd
    · have := absN_lt_of_lt a.year a.month a.day b.year b.month b.day
        am1 am2 ad1 ad2 bm1 bm2 bd1 bd2 (Or.inr ⟨hy, Or.inr ⟨hm, hd⟩⟩)
      exact absurd h (by intro he; rw [dt.Date.absIdx, dt.Date.absIdx] at he; omega)
    · exact hd
    · have := absN_lt_of_lt b.year b.month b.day a.year a.month a.day
        bm1 bm2 bd1 bd2 am1 am2 ad1 ad2 (Or.inr ⟨hy.symm, Or.inr ⟨hm.symm, hd⟩⟩)
      exact absurd h (by intro he; rw [dt.Date.absIdx, dt.Date.absIdx] at he; omega)
  cases a
  cases b
  simp only at hy hm hd
  rw [hy, hm, hd]

/-- Main characterization of `Date::add_days` on a valid date: the result
is always valid; when the target absolute index is representable the
result has exactly that index, and otherwise the date is left unchanged. -/
theorem add_days_spec (x : dt.Date) (n : Int) (hx : x.valid = true) :
    (x.add_days n).valid = true ∧
    (0 ≤ x.absIdx + n ∧ x.absIdx + n ≤ maxAbsIdx →
      (x.add_days n).absIdx = x.absIdx + n) ∧
    (x.absIdx + n < 0 ∨ maxAbsIdx < x.absIdx + n → x.add_days n = x) := by
  have hx' : dt.is_valid_date x.year x.month x.day = true := hx
  obtain ⟨hy1, hy2, hm1, hm2, hd1, hd2⟩ := (is_valid_date_iff _ _ _).mp hx'
  have hxr := (semi_valid_iff_range x.year x.month x.day hm1 hm2 hd1 hd2).mp hx'
  by_cases hn : n = 0
  · subst hn
    have hid : x.add_days 0 = x := by
      unfold dt.Date.add_days
      rw [if_pos rfl]
    rw [hid]
    refine ⟨hx, fun _ => by ring, fun hcon => rfl⟩
  · have hunf : x.add_days n =
        (if dt.is_valid_date
            (dt.addDaysDown ((1 - (dt.addDaysUp ((x.day + n).toNat + 1)
                ⟨x.year, x.month, x.day + n⟩).d).toNat + 1)
              (dt.addDaysUp ((x.day + n).toNat + 1) ⟨x.year, x.month, x.day + n⟩)).y
            (dt.addDaysDown ((1 - (dt.addDaysUp ((x.day + n).toNat + 1)
                ⟨x.year, x.month, x.day + n⟩).d).toNat + 1)
              (dt.addDaysUp ((x.day + n).toNat + 1) ⟨x.year, x.month, x.day + n⟩)).m
            (dt.addDaysDown ((1 - (dt.addDaysUp ((x.day + n).toNat + 1)
                ⟨x.year, x.month, x.day + n⟩).d).toNat + 1)
              (dt.addDaysUp ((x.day + n).toNat + 1) ⟨x.year, x.month, x.day + n⟩)).d = true
          then
            ⟨(dt.addDaysDown ((1 - (dt.addDaysUp ((x.day + n).toNat + 1)
                ⟨x.year, x.month, x.day + n⟩).d).toNat + 1)
              (dt.addDaysUp ((x.day + n).toNat + 1) ⟨x.year, x.month, x.day + n⟩)).y,
             (dt.addDaysDown ((1 - (dt.addDaysUp ((x.day + n).toNat + 1)
                ⟨x.year, x.month, x.day + n⟩).d).toNat + 1)
              (dt.addDaysUp ((x.day + n).toNat + 1) ⟨x.year, x.month, x.day + n⟩)).m,
             (dt.addDaysDown ((1 - (dt.addDaysUp ((x.day + n).toNat + 1)
                ⟨x.year, x.month, x.day + n⟩).d).toNat + 1)
              (dt.addDaysUp ((x.day + n).toNat + 1) ⟨x.year, x.month, x.day + n⟩)).d⟩
          else x) := by
      unfold dt.Date.add_days
      rw [if_neg hn]
    set t1 := dt.addDaysUp ((x.day + n).toNat + 1) ⟨x.year, x.month, x.day + n⟩ with ht1
    set t2 := dt.addDaysDown ((1 - t1.d).toNat + 1) t1 with ht2
    obtain ⟨ua, u1, u2, u3, u4⟩ :=
      addDaysUp_spec ((x.day + n).toNat + 1) ⟨x.year, x.month, x.day + n⟩ hm1 hm2
        (by
          have := Int.self_le_toNat (x.day + n)
          push_cast
          linarith)
    obtain ⟨da, d1, d2, d3, d4⟩ :=
      addDaysDown_spec ((1 - t1.d).toNat + 1) t1 u1 u2 u3
        (by
          have := Int.self_le_toNat (1 - t1.d)
          push_cast
          linarith)
    have habs : absN t2.y t2.m t2.d = x.absIdx + n := by
      rw [← ht1] at ua
      rw [da, ua]
      show absN x.year x.month (x.day + n) = absN x.year x.month x.day + n
      exact absN_shift x.year x.month x.day n
    have hiff := semi_valid_iff_range t2.y t2.m t2.d d1 d2 d3 d4
    rw [habs] at hiff
    by_cases hv : dt.is_valid_date t2.y t2.m t2.d = true
    · rw [hunf, if_pos hv]
      have hr := hiff.mp hv
      refine ⟨hv, fun _ => ?_, fun hcon => ?_⟩
      · show absN t2.y t2.m t2.d = x.absIdx + n
        exact habs
      · exfalso
        rcases hcon with hcon | hcon <;> omega
    · rw [hunf, if_neg hv]
      refine ⟨hx, fun hcon => ?_, fun _ => rfl⟩
      exact absurd (hiff.mpr hcon) hv

/-- A valid date has a representable absolute index. -/
theorem valid_absIdx_range (x : dt.Date) (hx : x.valid = true) :
    0 ≤ x.absIdx ∧ x.absIdx ≤ maxAbsIdx := by
  have hx' : dt.is_valid_date x.year x.month x.day = true := hx
  obtain ⟨-, -, hm1, hm2, hd1, hd2⟩ := (is_valid_date_iff _ _ _).mp hx'
  exact (semi_valid_iff_range x.year x.month x.day hm1 hm2 hd1 hd2).mp hx'

/-- Adding zero days is the identity (the source's early return). -/
theorem add_days_zero (x : dt.Date) : x.add_days 0 = x := by
  unfold dt.Date.add_days
  rw [if_pos rfl]

/-- On years ≥ 1 the source's `days_since_epoch` agrees with the ghost
floor-division closed form. -/
theorem days_since_epoch_eq (y : Int) (h : 1 ≤ y) :
    dt.days_since_epoch y = dseF y := by
  unfold dt.days_since_epoch dseF
  rw [Int.tdiv_eq_ediv (by omega) (by norm_num),
      Int.tdiv_eq_ediv (by omega) (by norm_num),
      Int.tdiv_eq_ediv (by omega) (by norm_num)]

/-- `day_of_year` in terms of the cumulative ghost table. -/
theorem day_of_year_eq (x : dt.Date) :
    x.day_of_year = cumStart x.month x.year + x.day := by
  unfold dt.Date.day_of_year cumStart
  ring

/-- The absolute index through the source's own day-counting functions. -/
theorem absIdx_eq_src (x : dt.Date) (h : 1 ≤ x.year) :
    x.absIdx = dt.days_since_epoch x.year + x.day_of_year - 1 := by
  rw [days_since_epoch_eq x.year h, day_of_year_eq]
  unfold dt.Date.absIdx absN
  ring

/-- `days_between` is the difference of absolute indices. -/
theorem days_between_eq (a b : dt.Date) (ha : 1 ≤ a.year) (hb : 1 ≤ b.year) :
    a.days_between b = a.absIdx - b.absIdx := by
  unfold dt.Date.days_between
  rw [absIdx_eq_src a ha, absIdx_eq_src b hb]

/-- Unfolding of the time invariant. -/
theorem time_valid_iff (t : dt.Time) :
    t.valid = true ↔ 0 ≤ t.nanos ∧ t.nanos < dt.NANOS_PER_DAY := by
  simp [dt.Time.valid]

/-- The seconds count of a valid time lies inside one day. -/
theorem total_seconds_bounds (t : dt.Time) (ht : t.valid = true) :
    0 ≤ t.total_seconds ∧ t.total_seconds < 86400 := by
  have h := (time_valid_iff t).mp ht
  unfold dt.Time.total_seconds
  simp only [dt.NANOS_PER_DAY] at h
  simp only [dt.NANOS_PER_SECOND]
  omega

/-- What `Time::add_seconds` stores: the floor remainder of the summed
seconds scaled to nanoseconds, plus the untouched sub-second part. -/
theorem Time.add_seconds_nanos (t : dt.Time) (s : Int) :
    (t.add_seconds s).nanos =
      (t.total_seconds + s) % dt.SECONDS_PER_DAY * dt.NANOS_PER_SECOND +
        t.nanos % dt.NANOS_PER_SECOND := by
  unfold dt.Time.add_seconds
  have h := (tdiv_tmod_floor (t.total_seconds + s) dt.SECONDS_PER_DAY
    (by norm_num [dt.SECONDS_PER_DAY])).2
  show (if (t.total_seconds + s).tmod dt.SECONDS_PER_DAY < 0 then
          (t.total_seconds + s).tmod dt.SECONDS_PER_DAY + dt.SECONDS_PER_DAY
        else (t.total_seconds + s).tmod dt.SECONDS_PER_DAY) * dt.NANOS_PER_SECOND +
        t.nanos % dt.NANOS_PER_SECOND = _
  rw [h]

/-- What `Time::add_nanoseconds` stores: the floor remainder of the summed
nanoseconds modulo one day. -/
theorem Time.add_nanoseconds_eq (t : dt.Time) (k : Int) :
    (t.add_nanoseconds k).nanos = (t.nanos + k) % dt.NANOS_PER_DAY := by
  unfold dt.Time.add_nanoseconds
  have h := (tdiv_tmod_floor (t.nanos + k) dt.NANOS_PER_DAY
    (by norm_num [dt.NANOS_PER_DAY])).2
  show (if (t.nanos + k).tmod dt.NANOS_PER_DAY < 0 then
          (t.nanos + k).tmod dt.NANOS_PER_DAY + dt.NANOS_PER_DAY
        else (t.nanos + k).tmod dt.NANOS_PER_DAY) = _
  rw [h]

/-- What `Time::add_milliseconds` stores. -/
theorem Time.add_milliseconds_eq (t : dt.Time) (k : Int) :
    (t.add_milliseconds k).nanos =
      (t.nanos + k * dt.NANOS_PER_MILLISECOND) % dt.NANOS_PER_DAY := by
  unfold dt.Time.add_milliseconds
  have h := (tdiv_tmod_floor (t.nanos + k * dt.NANOS_PER_MILLISECOND) dt.NANOS_PER_DAY
    (by norm_num [dt.NANOS_PER_DAY])).2
  show (if (t.nanos + k * dt.NANOS_PER_MILLISECOND).tmod dt.NANOS_PER_DAY < 0 then
          (t.nanos + k * dt.NANOS_PER_MILLISECOND).tmod dt.NANOS_PER_DAY + dt.NANOS_PER_DAY
        else (t.nanos + k * dt.NANOS_PER_MILLISECOND).tmod dt.NANOS_PER_DAY) = _
  rw [h]

/-- What `Time::from_seconds` stores. -/
theorem Time.from_seconds_eq (s : Int) :
    (dt.Time.from_seconds s).nanos =
      s % dt.SECONDS_PER_DAY * dt.NANOS_PER_SECOND := by
  unfold dt.Time.from_seconds
  have h := (tdiv_tmod_floor s dt.SECONDS_PER_DAY (by norm_num [dt.SECONDS_PER_DAY])).2
  show (if s.tmod dt.SECONDS_PER_DAY < 0 then
          s.tmod dt.SECONDS_PER_DAY + dt.SECONDS_PER_DAY
        else s.tmod dt.SECONDS_PER_DAY) * dt.NANOS_PER_SECOND = _
  rw [h]

/-- The source's two-branch `day_overflow` formula is floor division of
the summed seconds by one day. -/
theorem dayOverflow_eq (t : Int) :
    zuu.DateTime.dayOverflow t = t / dt.SECONDS_PER_DAY := by
  unfold zuu.DateTime.dayOverflow
  by_cases hge : dt.SECONDS_PER_DAY ≤ t
  · rw [if_pos hge]
    refine Int.tdiv_eq_ediv ?_ (by norm_num [dt.SECONDS_PER_DAY])
    simp only [dt.SECONDS_PER_DAY] at hge
    omega
  · rw [if_neg hge]
    by_cases hlt : t < 0
    · rw [if_pos hlt]
      exact neg_branch_tdiv t dt.SECONDS_PER_DAY (by norm_num [dt.SECONDS_PER_DAY]) hlt
    · rw [if_neg hlt]
      simp only [dt.SECONDS_PER_DAY] at hge ⊢
      omega

/-- The source's `remaining` seconds value is the floor remainder. -/
theorem remainingSecs_eq (t : Int) :
    zuu.DateTime.remainingSecs t = t % dt.SECONDS_PER_DAY := by
  unfold zuu.DateTime.remainingSecs
  by_cases hge : dt.SECONDS_PER_DAY ≤ t
  · rw [if_pos hge]
    refine Int.tmod_eq_emod ?_ (by norm_num [dt.SECONDS_PER_DAY])
    simp only [dt.SECONDS_PER_DAY] at hge
    omega
  · rw [if_neg hge]
    by_cases hlt : t < 0
    · rw [if_pos hlt, dayOverflow_eq, Int.emod_def]
      ring
    · rw [if_neg hlt]
      simp only [dt.SECONDS_PER_DAY] at hge ⊢
      omega

/-- A `Time` rebuilt from an in-range seconds value with the sub-second
part re-attached stores exactly the combined count. -/
theorem from_seconds_add_ns (r ns : Int) (hr : 0 ≤ r) (hr2 : r < 86400)
    (hns : 0 ≤ ns) (hns2 : ns < 1000000000) :
    ((dt.Time.from_seconds r).add_nanoseconds ns).nanos =
      r * dt.NANOS_PER_SECOND + ns := by
  rw [Time.add_nanoseconds_eq, Time.from_seconds_eq]
  simp only [dt.SECONDS_PER_DAY, dt.NANOS_PER_SECOND, dt.NANOS_PER_DAY]
  omega

/-- Characterization of `DateTime::add_seconds` on a valid time: the date
moves by the floor-divided day count and the time stores the floor
remainder scaled to nanoseconds with the sub-second part preserved. -/
theorem DateTime.add_seconds_parts (x : zuu.DateTime) (s : Int)
    (ht : x.time.valid = true) :
    (x.add_seconds s).date =
      x.date.add_days ((x.time.total_seconds + s) / dt.SECONDS_PER_DAY) ∧
    (x.add_seconds s).time.nanos =
      (x.time.total_seconds + s) % dt.SECONDS_PER_DAY * dt.NANOS_PER_SECOND +
        x.time.nanos % dt.NANOS_PER_SECOND := by
  have hv := (time_valid_iff x.time).mp ht
  have hT := total_seconds_bounds x.time ht
  unfold zuu.DateTime.add_seconds
  by_cases hs : s = 0
  · subst hs
    rw [if_pos rfl]
    have hdiv : (x.time.total_seconds + 0) / dt.SECONDS_PER_DAY = 0 := by
      simp only [dt.SECONDS_PER_DAY]
      omega
    have hmod : (x.time.total_seconds + 0) % dt.SECONDS_PER_DAY =
        x.time.total_seconds := by
      simp only [dt.SECONDS_PER_DAY]
      omega
    rw [hdiv, hmod, add_days_zero]
    refine ⟨rfl, ?_⟩
    unfold dt.Time.total_seconds
    simp only [dt.NANOS_PER_SECOND, dt.NANOS_PER_DAY] at *
    omega
  · rw [if_neg hs]
    constructor
    · show (if zuu.DateTime.dayOverflow (x.time.total_seconds + s) ≠ 0 then
          x.date.add_days (zuu.DateTime.dayOverflow (x.time.total_seconds + s))
        else x.date) = _
      rw [dayOverflow_eq]
      by_cases hov : (x.time.total_seconds + s) / dt.SECONDS_PER_DAY ≠ 0
      · rw [if_pos hov]
      · rw [if_neg hov]
        push_neg at hov
        rw [hov, add_days_zero]
    · show ((dt.Time.from_seconds
          (zuu.DateTime.remainingSecs (x.time.total_seconds + s))).add_nanoseconds
            x.time.nanosecond).nanos = _
      rw [remainingSecs_eq]
      have hr1 : 0 ≤ (x.time.total_seconds + s) % dt.SECONDS_PER_DAY := by
        simp only [dt.SECONDS_PER_DAY]
        omega
      have hr2 : (x.time.total_seconds + s) % dt.SECONDS_PER_DAY < 86400 := by
        simp only [dt.SECONDS_PER_DAY]
        omega
      have hns1 : 0 ≤ x.time.nanosecond := by
        unfold dt.Time.nanosecond
        simp only [dt.NANOS_PER_SECOND]
        omega
      have hns2 : x.time.nanosecond < 1000000000 := by
        unfold dt.Time.nanosecond
        simp only [dt.NANOS_PER_SECOND]
        omega
      rw [from_seconds_add_ns _ _ hr1 hr2 hns1 hns2]
      unfold dt.Time.nanosecond
      rfl

/-- The final `(h + 6) % 7` step of Zeller's congruence lands in [0, 6]. -/
theorem tmod7_shift_bounds (a : Int) :
    0 ≤ (a.tmod 7 + 6).tmod 7 ∧ (a.tmod 7 + 6).tmod 7 ≤ 6 := by
  have h1 := Int.tmod_lt_of_pos a (show (0:Int) < 7 by norm_num)
  have h2 := tmod_lower_bound a 7 (by norm_num)
  have h3 : 0 ≤ a.tmod 7 + 6 := by linarith
  rw [Int.tmod_eq_emod h3 (by norm_num)]
  generalize a.tmod 7 = k at h1 h2 h3 ⊢
  omega

/-- `day_of_week` always returns a value in [0, 6]. -/
theorem day_of_week_bounds (x : dt.Date) :
    0 ≤ x.day_of_week ∧ x.day_of_week ≤ 6 := by
  unfold dt.Date.day_of_week
  exact tmod7_shift_bounds _

/-- `day_of_year` of a valid date lies in [1, 366]. -/
theorem day_of_year_bounds (x : dt.Date) (hx : x.valid = true) :
    1 ≤ x.day_of_year ∧ x.day_of_year ≤ 366 := by
  have hx' : dt.is_valid_date x.year x.month x.day = true := hx
  obtain ⟨hy1, hy2, hm1, hm2, hd1, hd2⟩ := (is_valid_date_iff _ _ _).mp hx'
  have hb := dayIdx_bounds x.year x.month x.day hm1 hm2 hd1 hd2
  rw [day_of_year_eq]
  constructor
  · linarith [hb.1]
  · by_cases hl : dt.is_leap_year x.year = true
    · rw [if_pos hl] at hb
      linarith [hb.2]
    · rw [if_neg hl] at hb
      linarith [hb.2]

/-- `day_of_year` of a December 31 lies in [365, 366]. -/
theorem day_of_year_dec31 (y : Int) :
    365 ≤ dt.Date.day_of_year ⟨y, 12, 31⟩ ∧
      dt.Date.day_of_year ⟨y, 12, 31⟩ ≤ 366 := by
  have h12 := cumStart_step 12 y (by norm_num) (by norm_num)
  have h13 := cumStart_year y
  have hdim : dt.days_in_month 12 y = 31 := by
    norm_num [dt.days_in_month, dt.DAYS_PER_MONTH]
  norm_num at h12
  have hdoy : dt.Date.day_of_year ⟨y, 12, 31⟩ = cumStart 12 y + 31 :=
    day_of_year_eq ⟨y, 12, 31⟩
  rw [hdoy]
  by_cases hl : dt.is_leap_year y = true
  · rw [if_pos hl] at h13
    constructor <;> linarith
  · rw [if_neg hl] at h13
    constructor <;> linarith

/-- Bounds for the raw week formula over the day-of-year and weekday
ranges of a valid date. -/
theorem raw_week_formula_bounds (doy dow : Int) (h1 : 1 ≤ doy) (h2 : doy ≤ 366)
    (h3 : 0 ≤ dow) (h4 : dow ≤ 6) :
    0 ≤ (if dow ≤ 3 then (doy + dow - 1).tdiv 7 + 1 else (doy + dow - 1).tdiv 7) ∧
    (if dow ≤ 3 then (doy + dow - 1).tdiv 7 + 1 else (doy + dow - 1).tdiv 7) ≤ 53 := by
  rw [Int.tdiv_eq_ediv (by omega) (by norm_num)]
  split <;> omega

/-- Bounds for the raw week formula on a December 31. -/
theorem raw_week_formula_dec31 (doy dow : Int) (h1 : 365 ≤ doy) (h2 : doy ≤ 366)
    (h3 : 0 ≤ dow) (h4 : dow ≤ 6) :
    52 ≤ (if dow ≤ 3 then (doy + dow - 1).tdiv 7 + 1 else (doy + dow - 1).tdiv 7) ∧
    (if dow ≤ 3 then (doy + dow - 1).tdiv 7 + 1 else (doy + dow - 1).tdiv 7) ≤ 53 := by
  rw [Int.tdiv_eq_ediv (by omega) (by norm_num)]
  split <;> omega

/-- Unfolded form of `raw_week`. -/
theorem raw_week_def (x : dt.Date) :
    x.raw_week =
      if (⟨x.year, 1, 1⟩ : dt.Date).day_of_week ≤ 3 then
        (x.day_of_year + (⟨x.year, 1, 1⟩ : dt.Date).day_of_week - 1).tdiv 7 + 1
      else (x.day_of_year + (⟨x.year, 1, 1⟩ : dt.Date).day_of_week - 1).tdiv 7 := rfl

/-- `raw_week` of a valid date lies in [0, 53]. -/
theorem raw_week_bounds (x : dt.Date) (hx : x.valid = true) :
    0 ≤ x.raw_week ∧ x.raw_week ≤ 53 := by
  have hdow := day_of_week_bounds ⟨x.year, 1, 1⟩
  have hdoy := day_of_year_bounds x hx
  unfold dt.Date.raw_week
  exact raw_week_formula_bounds _ _ hdoy.1 hdoy.2 hdow.1 hdow.2

/-- `raw_week` of a December 31 lies in [52, 53]; in particular the
week-0 fold never fires on the recursion target. -/
theorem raw_week_dec31 (y : Int) :
    52 ≤ dt.Date.raw_week ⟨y, 12, 31⟩ ∧ dt.Date.raw_week ⟨y, 12, 31⟩ ≤ 53 := by
  have hdow := day_of_week_bounds (⟨y, 1, 1⟩ : dt.Date)
  have hdoy := day_of_year_dec31 y
  unfold dt.Date.raw_week
  exact raw_week_formula_dec31 _ _ hdoy.1 hdoy.2 hdow.1 hdow.2

/-- A valid date whose raw week index is 0 lies in year 2 or later (so
the source's recursion on December 31 of the previous year never
constructs an invalid year-0 date). -/
theorem year_ge2_of_raw0 (x : dt.Date) (hx : x.valid = true)
    (h : x.raw_week = 0) : 2 ≤ x.year := by
  have hx' : dt.is_valid_date x.year x.month x.day = true := hx
  obtain ⟨hy1, -, -⟩ := (is_valid_date_iff _ _ _).mp hx'
  rcases eq_or_lt_of_le hy1 with hy | hy
  · exfalso
    have hdoy := day_of_year_bounds x hx
    have hdow1 : (⟨x.year, 1, 1⟩ : dt.Date).day_of_week = 1 := by
      rw [← hy]
      decide
    rw [raw_week_def, hdow1] at h
    rw [if_pos (by norm_num)] at h
    have htd : 0 ≤ (x.day_of_year + 1 - 1).tdiv 7 :=
      Int.tdiv_nonneg (by linarith [hdoy.1]) (by norm_num)
    omega
  · omega

/-- One-step unfolding of the fueled `week_number` recursion. -/
theorem week_number_aux_succ (fuel : Nat) (x : dt.Date) :
    dt.Date.week_number_aux (fuel + 1) x =
      if x.raw_week = 0 then dt.Date.week_number_aux fuel ⟨x.year - 1, 12, 31⟩
      else if x.raw_week = 53 then
        (if (⟨x.year + 1, 1, 1⟩ : dt.Date).day_of_week ≤ 3 then 1 else x.raw_week)
      else x.raw_week := rfl

/-- The fuel is irrelevant on a date whose raw week is nonzero (no
recursion happens). -/
theorem week_number_aux_of_ne (f1 f2 : Nat) (x : dt.Date) (h : x.raw_week ≠ 0) :
    dt.Date.week_number_aux (f1 + 1) x = dt.Date.week_number_aux (f2 + 1) x := by
  rw [week_number_aux_succ, week_number_aux_succ, if_neg h, if_neg h]

/-- A valid date's year gives the fuel in successor form. -/
theorem week_number_unfold (x : dt.Date) (hy : 1 ≤ x.year) :
    x.week_number = dt.Date.week_number_aux (x.year.toNat - 1 + 1) x := by
  unfold dt.Date.week_number
  congr 1
  omega

/-- Week-0 fold: the source recurses on December 31 of the previous
year. -/
theorem week_number_fold0 (x : dt.Date) (hx : x.valid = true)
    (h0 : x.raw_week = 0) :
    x.week_number = dt.Date.week_number ⟨x.year - 1, 12, 31⟩ := by
  have hx' : dt.is_valid_date x.year x.month x.day = true := hx
  obtain ⟨hy1, -, -⟩ := (is_valid_date_iff _ _ _).mp hx'
  have hy2 := year_ge2_of_raw0 x hx h0
  rw [week_number_unfold x hy1, week_number_aux_succ, if_pos h0]
  have hyr : (⟨x.year - 1, 12, 31⟩ : dt.Date).year = x.year - 1 := rfl
  unfold dt.Date.week_number
  rw [hyr]
  congr 1
  omega

/-- Week-53 fold: the source returns 1 when next year's January 1 has
weekday index at most 3, and keeps 53 otherwise. -/
theorem week_number_fold53 (x : dt.Date) (hx : x.valid = true)
    (h53 : x.raw_week = 53) :
    x.week_number =
      if (⟨x.year + 1, 1, 1⟩ : dt.Date).day_of_week ≤ 3 then 1 else 53 := by
  have hx' : dt.is_valid_date x.year x.month x.day = true := hx
  obtain ⟨hy1, -, -⟩ := (is_valid_date_iff _ _ _).mp hx'
  rw [week_number_unfold x hy1, week_number_aux_succ,
      if_neg (by rw [h53]; norm_num), if_pos h53, h53]

/-- No fold: the raw week index is returned as is. -/
theorem week_number_plain (x : dt.Date) (hx : x.valid = true)
    (h0 : x.raw_week ≠ 0) (h53 : x.raw_week ≠ 53) :
    x.week_number = x.raw_week := by
  have hx' : dt.is_valid_date x.year x.month x.day = true := hx
  obtain ⟨hy1, -, -⟩ := (is_valid_date_iff _ _ _).mp hx'
  rw [week_number_unfold x hy1, week_number_aux_succ, if_neg h0, if_neg h53]

/-- `week_number` of a valid date lies in [1, 53]. -/
theorem week_number_bounds (x : dt.Date) (hx : x.valid = true) :
    1 ≤ x.week_number ∧ x.week_number ≤ 53 := by
  have hb := raw_week_bounds x hx
  by_cases h0 : x.raw_week = 0
  · rw [week_number_fold0 x hx h0]
    have hy2 := year_ge2_of_raw0 x hx h0
    have hprev := raw_week_dec31 (x.year - 1)
    have hpy : (⟨x.year - 1, 12, 31⟩ : dt.Date).year = x.year - 1 := rfl
    have hne : dt.Date.raw_week ⟨x.year - 1, 12, 31⟩ ≠ 0 := by omega
    rw [week_number_unfold ⟨x.year - 1, 12, 31⟩ (by rw [hpy]; omega),
        week_number_aux_succ, if_neg hne]
    by_cases h53p : dt.Date.raw_week ⟨x.year - 1, 12, 31⟩ = 53
    · rw [if_pos h53p]
      split
      · norm_num
      · rw [h53p]
        norm_num
    · rw [if_neg h53p]
      omega
  · by_cases h53 : x.raw_week = 53
    · rw [week_number_fold53 x hx h53]
      split <;> norm_num
    · rw [week_number_plain x hx h0 h53]
      omega

/-- On an absolute month index that is nonnegative or divisible by 12
(the cases where C++ truncating division agrees with floor division on
both quotient and remainder), the source's `add_months` computes exactly
the claim's decompose-and-clamp recipe, and the validity re-check always
passes, so the clamped result is committed. -/
theorem add_months_eq_claim (x : dt.Date) (n : Int) (hx : x.valid = true)
    (htot : 0 ≤ (x.year - 1) * 12 + (x.month - 1) + n ∨
      (12 : Int) ∣ ((x.year - 1) * 12 + (x.month - 1) + n)) :
    x.add_months n = add_months_claim x n := by
  obtain ⟨xy, xm, xd⟩ := x
  have hx' : dt.is_valid_date xy xm xd = true := hx
  obtain ⟨hy1, hy2, hm1, hm2, hd1, hd2⟩ := (is_valid_date_iff _ _ _).mp hx'
  unfold dt.Date.add_months add_months_claim
  dsimp only at htot ⊢
  by_cases hn : n = 0
  · subst hn
    rw [if_pos rfl]
    have ht0 : (xy - 1) * 12 + (xm - 1) + 0 = (xy - 1) * 12 + (xm - 1) := by ring
    rw [ht0]
    have hdiv : ((xy - 1) * 12 + (xm - 1)) / 12 + 1 = xy := by omega
    have hmod : ((xy - 1) * 12 + (xm - 1)) % 12 + 1 = xm := by omega
    rw [hdiv, hmod]
    simp only [dt.MIN_YEAR, dt.MAX_YEAR]
    rw [if_neg (by omega), if_neg (by omega), if_neg (not_lt.mpr hd2)]
  · rw [if_neg hn]
    have htd : ((xy - 1) * 12 + (xm - 1) + n).tdiv 12 =
        ((xy - 1) * 12 + (xm - 1) + n) / 12 := by
      rcases htot with h | h
      · exact Int.tdiv_eq_ediv h (by norm_num)
      · exact Int.tdiv_eq_ediv_of_dvd h
    have htm : ((xy - 1) * 12 + (xm - 1) + n).tmod 12 =
        ((xy - 1) * 12 + (xm - 1) + n) % 12 := by
      rcases htot with h | h
      · exact Int.tmod_eq_emod h (by norm_num)
      · rw [Int.tmod_eq_zero_of_dvd h, Int.emod_eq_zero_of_dvd h]
    rw [htd, htm]
    simp only [dt.MIN_YEAR, dt.MAX_YEAR]
    set t := (xy - 1) * 12 + (xm - 1) + n with hts
    set m2 := t % 12 + 1 with hm2s
    set y0 := t / 12 + 1 with hy0s
    set y1 := if y0 < 1 then 1 else y0 with hy1s
    set y2 := if y1 > 9999 then 9999 else y1 with hy2s
    have hy2b : 1 ≤ y2 ∧ y2 ≤ 9999 := by
      rw [hy2s, hy1s]
      by_cases hc1 : y0 < 1
      · rw [if_pos hc1]
        norm_num
      · rw [if_neg hc1]
        by_cases hc2 : y0 > 9999
        · rw [if_pos hc2]
          norm_num
        · rw [if_neg hc2]
          omega
    have hm2b : 1 ≤ m2 ∧ m2 ≤ 12 := by
      rw [hm2s]
      omega
    have hb := days_in_month_bounds m2 y2 hm2b.1 hm2b.2
    set d2 := if xd > dt.days_in_month m2 y2 then dt.days_in_month m2 y2 else xd
      with hd2s
    have hd2b : 1 ≤ d2 ∧ d2 ≤ dt.days_in_month m2 y2 := by
      rw [hd2s]
      by_cases hcl : xd > dt.days_in_month m2 y2
      · rw [if_pos hcl]
        exact ⟨by linarith [hb.1], le_refl _⟩
      · rw [if_neg hcl]
        exact ⟨hd1, le_of_not_lt hcl⟩
    have hval : dt.is_valid_date y2 m2 d2 = true := by
      rw [is_valid_date_iff]
      exact ⟨hy2b.1, hy2b.2, hm2b.1, hm2b.2, hd2b.1, hd2b.2⟩
    rw [if_pos hval]

/-- C1: For every valid DateTime and every integer delta of seconds (and
minutes/hours, converted to seconds), `DateTime::add_seconds` adds the
delta to the time-of-day's linear seconds count, computes the whole days
crossed by floor division (so a negative delta below zero gives a
negative day count), applies that day count to the date component via
`add_days`, and stores the non-negative remainder (with the sub-second
part re-attached); in particular 2024-12-31 23:30:00 plus 2 hours is
2025-01-01 01:30:00, and the negative crossing decrements the date. -/
theorem c1_subday_carry :
    (∀ (x : zuu.DateTime) (s : Int), x.time.valid = true →
      (x.add_seconds s).date =
        x.date.add_days ((x.time.total_seconds + s) / dt.SECONDS_PER_DAY) ∧
      (x.add_seconds s).time.nanos =
        (x.time.total_seconds + s) % dt.SECONDS_PER_DAY * dt.NANOS_PER_SECOND +
          x.time.nanos % dt.NANOS_PER_SECOND ∧
      0 ≤ (x.time.total_seconds + s) % dt.SECONDS_PER_DAY ∧
      (x.time.total_seconds + s) % dt.SECONDS_PER_DAY < dt.SECONDS_PER_DAY) ∧
    (∀ (x : zuu.DateTime) (hq mq : Int),
      x.add_hours hq = x.add_seconds (hq * dt.SECONDS_PER_HOUR) ∧
      x.add_minutes mq = x.add_seconds (mq * dt.SECONDS_PER_MINUTE)) ∧
    zuu.DateTime.add_hours ⟨⟨2024, 12, 31⟩, dt.Time.ofHMS 23 30 0 0⟩ 2 =
      ⟨⟨2025, 1, 1⟩, dt.Time.ofHMS 1 30 0 0⟩ ∧
    zuu.DateTime.add_hours ⟨⟨2025, 1, 1⟩, dt.Time.ofHMS 1 30 0 0⟩ (-2) =
      ⟨⟨2024, 12, 31⟩, dt.Time.ofHMS 23 30 0 0⟩ := by
  refine ⟨?_, ?_, by decide, by decide⟩
  · intro x s ht
    obtain ⟨h1, h2⟩ := DateTime.add_seconds_parts x s ht
    refine ⟨h1, h2, ?_, ?_⟩ <;> simp only [dt.SECONDS_PER_DAY] <;> omega
  · intro x hq mq
    exact ⟨rfl, rfl⟩

/-- Witness for C1 at a concrete valid instant and delta. -/
theorem c1_subday_carry_witness :
    (⟨⟨2024, 12, 31⟩, dt.Time.ofHMS 23 30 0 0⟩ : zuu.DateTime).time.valid = true ∧
    (zuu.DateTime.add_seconds ⟨⟨2024, 12, 31⟩, dt.Time.ofHMS 23 30 0 0⟩ 7200).date =
      dt.Date.add_days (⟨2024, 12, 31⟩ : dt.Date)
        (((⟨⟨2024, 12, 31⟩, dt.Time.ofHMS 23 30 0 0⟩ : zuu.DateTime).time.total_seconds +
            7200) / dt.SECONDS_PER_DAY) := by
  refine ⟨by decide, ?_⟩
  exact (c1_subday_carry.1 ⟨⟨2024, 12, 31⟩, dt.Time.ofHMS 23 30 0 0⟩ 7200 (by decide)).1

/-- Equality of `Time` values from equality of stored counts. -/
theorem Time.eq_of_nanos (a b : dt.Time) (h : a.nanos = b.nanos) : a = b := by
  cases a
  cases b
  simpa using h

/-- C2: For every DateTime with zero sub-second component, a valid date
(year in [1,9999]) and a valid time, `from_unix_timestamp` inverts
`to_unix_timestamp` exactly: `to_unix_timestamp` is the day difference
from 1970-01-01 times SECONDS_PER_DAY plus the time-of-day seconds, and
`from_unix_timestamp` floor-divides back into whole days and a remainder
in [0, SECONDS_PER_DAY). -/
theorem c2_unix_round_trip (x : zuu.DateTime) (hd : x.date.valid = true)
    (ht : x.time.valid = true) (hns : x.time.nanosecond = 0) :
    zuu.DateTime.from_unix_timestamp x.to_unix_timestamp = x := by
  obtain ⟨xd, xt⟩ := x
  have hrange := valid_absIdx_range xd hd
  have hT := total_seconds_bounds xt ht
  have hy1 : 1 ≤ xd.year := by
    have hx' : dt.is_valid_date xd.year xd.month xd.day = true := hd
    exact ((is_valid_date_iff _ _ _).mp hx').1
  have hepochv : dt.Date.valid ⟨1970, 1, 1⟩ = true := by decide
  have heabs : dt.Date.absIdx ⟨1970, 1, 1⟩ = 719162 := by decide
  have hts : zuu.DateTime.to_unix_timestamp ⟨xd, xt⟩ =
      (xd.absIdx - 719162) * 86400 + xt.total_seconds := by
    show xd.days_between ⟨1970, 1, 1⟩ * dt.SECONDS_PER_DAY + xt.total_seconds = _
    rw [days_between_eq xd ⟨1970, 1, 1⟩ hy1 (by decide), heabs]
    simp only [dt.SECONDS_PER_DAY]
  have hfl := tdiv_tmod_floor (zuu.DateTime.to_unix_timestamp ⟨xd, xt⟩)
    dt.SECONDS_PER_DAY (by norm_num [dt.SECONDS_PER_DAY])
  have hdiv : zuu.DateTime.to_unix_timestamp ⟨xd, xt⟩ / dt.SECONDS_PER_DAY =
      xd.absIdx - 719162 := by
    rw [hts]
    simp only [dt.SECONDS_PER_DAY]
    omega
  have hmod : zuu.DateTime.to_unix_timestamp ⟨xd, xt⟩ % dt.SECONDS_PER_DAY =
      xt.total_seconds := by
    rw [hts]
    simp only [dt.SECONDS_PER_DAY]
    omega
  have hdate : dt.Date.add_days ⟨1970, 1, 1⟩
      (if (zuu.DateTime.to_unix_timestamp ⟨xd, xt⟩).tmod dt.SECONDS_PER_DAY < 0 then
        (zuu.DateTime.to_unix_timestamp ⟨xd, xt⟩).tdiv dt.SECONDS_PER_DAY - 1
      else (zuu.DateTime.to_unix_timestamp ⟨xd, xt⟩).tdiv dt.SECONDS_PER_DAY) = xd := by
    rw [hfl.1, hdiv]
    obtain ⟨hval, hmove, -⟩ := add_days_spec ⟨1970, 1, 1⟩ (xd.absIdx - 719162) hepochv
    have habs := hmove (by rw [heabs]; constructor <;> omega)
    rw [heabs] at habs
    refine absIdx_inj _ _ hval hd ?_
    rw [habs]
    ring
  have htime : dt.Time.from_seconds
      (if (zuu.DateTime.to_unix_timestamp ⟨xd, xt⟩).tmod dt.SECONDS_PER_DAY < 0 then
        (zuu.DateTime.to_unix_timestamp ⟨xd, xt⟩).tmod dt.SECONDS_PER_DAY +
          dt.SECONDS_PER_DAY
      else (zuu.DateTime.to_unix_timestamp ⟨xd, xt⟩).tmod dt.SECONDS_PER_DAY) = xt := by
    rw [hfl.2, hmod]
    refine Time.eq_of_nanos _ _ ?_
    rw [Time.from_seconds_eq]
    have hns' : xt.nanos % dt.NANOS_PER_SECOND = 0 := hns
    have hb := (time_valid_iff xt).mp ht
    unfold dt.Time.total_seconds
    simp only [dt.SECONDS_PER_DAY, dt.NANOS_PER_SECOND, dt.NANOS_PER_DAY] at *
    omega
  show (⟨dt.Date.add_days ⟨1970, 1, 1⟩
      (if (zuu.DateTime.to_unix_timestamp ⟨xd, xt⟩).tmod dt.SECONDS_PER_DAY < 0 then
        (zuu.DateTime.to_unix_timestamp ⟨xd, xt⟩).tdiv dt.SECONDS_PER_DAY - 1
      else (zuu.DateTime.to_unix_timestamp ⟨xd, xt⟩).tdiv dt.SECONDS_PER_DAY),
    dt.Time.from_seconds
      (if (zuu.DateTime.to_unix_timestamp ⟨xd, xt⟩).tmod dt.SECONDS_PER_DAY < 0 then
        (zuu.DateTime.to_unix_timestamp ⟨xd, xt⟩).tmod dt.SECONDS_PER_DAY +
          dt.SECONDS_PER_DAY
      else (zuu.DateTime.to_unix_timestamp ⟨xd, xt⟩).tmod dt.SECONDS_PER_DAY)⟩ :
    zuu.DateTime) = ⟨xd, xt⟩
  rw [hdate, htime]

/-- Witness for C2 at a concrete near-epoch instant. -/
theorem c2_unix_round_trip_witness :
    (⟨⟨1970, 1, 2⟩, dt.Time.ofHMS 1 2 3 0⟩ : zuu.DateTime).date.valid = true ∧
    (⟨⟨1970, 1, 2⟩, dt.Time.ofHMS 1 2 3 0⟩ : zuu.DateTime).time.valid = true ∧
    (⟨⟨1970, 1, 2⟩, dt.Time.ofHMS 1 2 3 0⟩ : zuu.DateTime).time.nanosecond = 0 ∧
    zuu.DateTime.from_unix_timestamp
      (zuu.DateTime.to_unix_timestamp ⟨⟨1970, 1, 2⟩, dt.Time.ofHMS 1 2 3 0⟩) =
      ⟨⟨1970, 1, 2⟩, dt.Time.ofHMS 1 2 3 0⟩ :=
  ⟨by decide, by decide, by decide,
    c2_unix_round_trip ⟨⟨1970, 1, 2⟩, dt.Time.ofHMS 1 2 3 0⟩
      (by decide) (by decide) (by decide)⟩

/-- C3 counterexample: at the representable-range boundary the inverse
law fails, because `add_days` is a silent no-op when the stepped result
leaves year 9999: Date(9999,12,31).add_days(1).add_days(-1) is
9999-12-30, not the original date. -/
theorem c3_add_days_inverse_cx :
    dt.Date.valid ⟨9999, 12, 31⟩ = true ∧
    dt.Date.add_days (dt.Date.add_days ⟨9999, 12, 31⟩ 1) (-1) ≠ ⟨9999, 12, 31⟩ := by
  decide

/-- C3 amended: for every valid Date `v` and integer `n` whose stepped
result stays inside the representable range (absolute day index of `v`
plus `n` within [0, maxAbsIdx], i.e. between 0001-01-01 and 9999-12-31),
`v.add_days(n).add_days(-n) = v`; at the range boundary `add_days` is a
no-op and the inverse law can fail. -/
theorem c3_add_days_inverse (v : dt.Date) (n : Int) (hv : v.valid = true)
    (h1 : 0 ≤ v.absIdx + n) (h2 : v.absIdx + n ≤ maxAbsIdx) :
    (v.add_days n).add_days (-n) = v := by
  obtain ⟨hval, hmove, -⟩ := add_days_spec v n hv
  have habs := hmove ⟨h1, h2⟩
  have hvr := valid_absIdx_range v hv
  obtain ⟨hval2, hmove2, -⟩ := add_days_spec (v.add_days n) (-n) hval
  have habs2 := hmove2 (by rw [habs]; constructor <;> omega)
  refine absIdx_inj _ _ hval2 hv ?_
  rw [habs2, habs]
  ring

/-- Witness for C3 at a concrete in-range date and step. -/
theorem c3_add_days_inverse_witness :
    dt.Date.valid ⟨2024, 1, 31⟩ = true ∧
    0 ≤ dt.Date.absIdx ⟨2024, 1, 31⟩ + 40 ∧
    dt.Date.absIdx ⟨2024, 1, 31⟩ + 40 ≤ maxAbsIdx ∧
    dt.Date.add_days (dt.Date.add_days ⟨2024, 1, 31⟩ 40) (-40) = ⟨2024, 1, 31⟩ :=
  ⟨by decide, by decide, by decide,
    c3_add_days_inverse ⟨2024, 1, 31⟩ 40 (by decide) (by decide) (by decide)⟩

/-- C4 counterexample: for a negative absolute month index the source's
truncating division produces a month index outside [1,12], the validity
re-check fails, and `add_months` leaves the date unchanged instead of
performing the claimed decompose-and-clamp:
Date(1,1,31).add_months(-1) stays 0001-01-31 while the claimed recipe
gives 0001-12-31. -/
theorem c4_add_months_cx :
    dt.Date.valid ⟨1, 1, 31⟩ = true ∧
    dt.Date.add_months ⟨1, 1, 31⟩ (-1) = ⟨1, 1, 31⟩ ∧
    add_months_claim ⟨1, 1, 31⟩ (-1) = ⟨1, 12, 31⟩ ∧
    dt.Date.add_months ⟨1, 1, 31⟩ (-1) ≠ add_months_claim ⟨1, 1, 31⟩ (-1) := by
  decide

/-- On a negative absolute month index that is not divisible by 12, the
truncating remainder is in [-11, -1], so the computed month index lies
outside [1, 12], the validity re-check fails, and `add_months` leaves the
date unchanged. -/
theorem add_months_noop_of_neg (x : dt.Date) (n : Int) (hx : x.valid = true)
    (hneg : (x.year - 1) * 12 + (x.month - 1) + n < 0)
    (hnd : ¬ (12 : Int) ∣ ((x.year - 1) * 12 + (x.month - 1) + n)) :
    x.add_months n = x := by
  obtain ⟨xy, xm, xd⟩ := x
  have hx' : dt.is_valid_date xy xm xd = true := hx
  obtain ⟨hy1, hy2, hm1, hm2, hd1, hd2⟩ := (is_valid_date_iff _ _ _).mp hx'
  dsimp only at hneg hnd ⊢
  have hn : n ≠ 0 := by
    intro h
    rw [h] at hneg
    omega
  unfold dt.Date.add_months
  dsimp only
  rw [if_neg hn]
  set t := (xy - 1) * 12 + (xm - 1) + n with hts
  have htm0 : t.tmod 12 ≠ 0 := fun h => hnd (Int.dvd_of_tmod_eq_zero h)
  have htmneg : t.tmod 12 ≤ 0 := by
    have hflip : t.tmod 12 = -((-t).tmod 12) := by
      rw [Int.tmod_def, Int.tmod_def, Int.neg_tdiv]
      ring
    have h1 : (-t).tmod 12 = (-t) % 12 := Int.tmod_eq_emod (by omega) (by norm_num)
    have h2 : 0 ≤ (-t) % 12 := Int.emod_nonneg _ (by norm_num)
    rw [hflip, h1]
    omega
  have hfail : ∀ Y D : Int, dt.is_valid_date Y (t.tmod 12 + 1) D = true → False := by
    intro Y D h
    obtain ⟨-, -, hm1', -⟩ := (is_valid_date_iff _ _ _).mp h
    omega
  rw [if_neg (fun h => hfail _ _ h)]

/-- C4 amended: whenever the absolute month index
`(year-1)*12 + (month-1) + n` is nonnegative or divisible by 12,
`add_months` computes that index, decomposes it back into (year, month)
by floor division, clamps the year into [1,9999] and the day to the new
month's length (the claimed recipe, `add_months_claim`); when the index
is negative and not divisible by 12, the call leaves the date unchanged
(the truncating division makes the month index invalid); the
month-end-clamp examples hold, Date(2,1,10).add_months(-24) clamps the
year and yields 0001-01-10, and `add_years n` is exactly
`add_months (n*12)`. -/
theorem c4_add_months :
    (∀ (x : dt.Date) (n : Int), x.valid = true →
      0 ≤ (x.year - 1) * 12 + (x.month - 1) + n ∨
        (12 : Int) ∣ ((x.year - 1) * 12 + (x.month - 1) + n) →
      x.add_months n = add_months_claim x n) ∧
    (∀ (x : dt.Date) (n : Int), x.valid = true →
      (x.year - 1) * 12 + (x.month - 1) + n < 0 →
      ¬ (12 : Int) ∣ ((x.year - 1) * 12 + (x.month - 1) + n) →
      x.add_months n = x) ∧
    (∀ (x : dt.Date) (n : Int), x.add_years n = x.add_months (n * 12)) ∧
    dt.Date.add_months ⟨2024, 1, 31⟩ 1 = ⟨2024, 2, 29⟩ ∧
    dt.Date.add_months ⟨2023, 1, 31⟩ 1 = ⟨2023, 2, 28⟩ ∧
    dt.Date.add_months ⟨2, 1, 10⟩ (-24) = ⟨1, 1, 10⟩ := by
  exact ⟨add_months_eq_claim, add_months_noop_of_neg, fun x n => rfl,
    by decide, by decide, by decide⟩

/-- Witness for C4 at concrete dates and month deltas exercising both the
nonnegative-or-divisible branch and the no-op branch. -/
theorem c4_add_months_witness :
    dt.Date.valid ⟨2024, 1, 31⟩ = true ∧
    dt.Date.add_months ⟨2024, 1, 31⟩ 1 = add_months_claim ⟨2024, 1, 31⟩ 1 ∧
    dt.Date.valid ⟨1, 1, 31⟩ = true ∧
    dt.Date.add_months ⟨1, 1, 31⟩ (-1) = ⟨1, 1, 31⟩ :=
  ⟨by decide,
    c4_add_months.1 ⟨2024, 1, 31⟩ 1 (by decide) (Or.inl (by decide)),
    by decide,
    c4_add_months.2.1 ⟨1, 1, 31⟩ (-1) (by decide) (by decide) (by decide)⟩

/-- C5: evaluation of the claimed clamp policy at the lower year boundary.
An `add_months` call whose decomposed year falls below 1 leaves the date
completely unchanged (the truncating division makes the month index
invalid and the validity re-check fails), contradicting the claimed
"clamp and succeed, never leave unchanged" policy; the upper boundary
does clamp (9999-12-31 plus one month becomes 9999-01-31). -/
theorem c5_add_months_boundary :
    dt.Date.valid ⟨1, 1, 31⟩ = true ∧
    dt.Date.add_months ⟨1, 1, 31⟩ (-13) = ⟨1, 1, 31⟩ ∧
    dt.Date.add_months ⟨9999, 12, 31⟩ 1 = ⟨9999, 1, 31⟩ := by
  decide

/-- C6: `Time::add_seconds` adds the delta to the elapsed count and
reduces it modulo one day with floor-modulo semantics (negative deltas
wrap to the previous day's time-of-day), never fails (the invariant is
re-established unconditionally); the minute/hour variants delegate via
unit conversion and the millisecond/nanosecond variants floor-reduce the
nanosecond count; in particular Time(0,0,0).add_seconds(-1) is
23:59:59. -/
theorem c6_time_wrap :
    (∀ (t : dt.Time) (s : Int),
      (t.add_seconds s).nanos =
        (t.total_seconds + s) % dt.SECONDS_PER_DAY * dt.NANOS_PER_SECOND +
          t.nanos % dt.NANOS_PER_SECOND ∧
      (t.add_seconds s).valid = true) ∧
    (∀ (t : dt.Time) (s : Int),
      t.add_minutes s = t.add_seconds (s * dt.SECONDS_PER_MINUTE) ∧
      t.add_hours s = t.add_seconds (s * dt.SECONDS_PER_HOUR) ∧
      (t.add_milliseconds s).nanos =
        (t.nanos + s * dt.NANOS_PER_MILLISECOND) % dt.NANOS_PER_DAY ∧
      (t.add_nanoseconds s).nanos = (t.nanos + s) % dt.NANOS_PER_DAY) ∧
    dt.Time.add_seconds (dt.Time.ofHMS 0 0 0 0) (-1) = dt.Time.ofHMS 23 59 59 0 := by
  refine ⟨?_, ?_, by decide⟩
  · intro t s
    refine ⟨Time.add_seconds_nanos t s, ?_⟩
    rw [time_valid_iff, Time.add_seconds_nanos]
    simp only [dt.SECONDS_PER_DAY, dt.NANOS_PER_SECOND, dt.NANOS_PER_DAY]
    omega
  · intro t s
    exact ⟨rfl, rfl, Time.add_milliseconds_eq t s, Time.add_nanoseconds_eq t s⟩

/-- C7: evaluation of `week_number` at the input where the claimed
week-53 fold rule fails.  The source's Zeller conversion `(h + 6) % 7`
actually yields Sunday-0 indexing, off by one from its documented
Monday-0 labelling (2024-12-25, a real Wednesday, yields 3 where the
documented labelling — and the repo's own
`static_assert(day_of_week() == 2)` in examples.cpp — demands 2), so the
fold test `day_of_week <= 3` does not mean "Thursday or earlier" in real
weekdays.  Date(2025,12,31) has raw week 53 and January 1 2026 falls on
a real Thursday, yet the code's index for 2026-01-01 is 4, the fold does
not fire, and `week_number` returns 53 where the claim (and ISO 8601,
which places that date in week 1 of 2026) demands 1.  The claim's two
in-particular examples do hold on the code. -/
theorem c7_week53_fold_bug :
    dt.Date.raw_week ⟨2025, 12, 31⟩ = 53 ∧
    dt.Date.day_of_week ⟨2026, 1, 1⟩ = 4 ∧
    dt.Date.week_number ⟨2025, 12, 31⟩ = 53 ∧
    dt.Date.day_of_week ⟨2024, 12, 25⟩ = 3 ∧
    dt.Date.week_number ⟨2024, 12, 31⟩ = 1 ∧
    dt.Date.week_number ⟨2025, 1, 1⟩ = 1 := by
  decide

/-- C8: construction fails (raises the modelled `InvalidComponent`, i.e.
returns `none`) exactly when a component is out of range or the day is
inconsistent with the month and year; in particular Date(2023,2,29) and
Time(24,0,0) fail, and every in-range combination succeeds. -/
theorem c8_construction :
    (∀ y m d : Int, (dt.Date.mk? y m d).isSome = true ↔
      (1 ≤ y ∧ y ≤ 9999 ∧ 1 ≤ m ∧ m ≤ 12 ∧ 1 ≤ d ∧ d ≤ dt.days_in_month m y)) ∧
    (∀ h mn s ns : Int, (dt.Time.mk? h mn s ns).isSome = true ↔
      (0 ≤ h ∧ h < 24 ∧ 0 ≤ mn ∧ mn < 60 ∧ 0 ≤ s ∧ s < 60 ∧
        0 ≤ ns ∧ ns < dt.NANOS_PER_SECOND)) ∧
    (∀ y mo d h mn s ns : Int,
      (zuu.DateTime.mk? y mo d h mn s ns).isSome = true ↔
        (dt.is_valid_date y mo d = true ∧ dt.is_valid_time h mn s ns = true)) ∧
    dt.Date.mk? 2023 2 29 = none ∧
    dt.Time.mk? 24 0 0 0 = none := by
  refine ⟨?_, ?_, ?_, by decide, by decide⟩
  · intro y m d
    rw [← is_valid_date_iff]
    unfold dt.Date.mk?
    by_cases hv : dt.is_valid_date y m d = true
    · rw [if_pos hv]
      simp [hv]
    · rw [if_neg hv]
      simp [hv]
  · intro h mn s ns
    rw [← is_valid_time_iff]
    unfold dt.Time.mk?
    by_cases hv : dt.is_valid_time h mn s ns = true
    · rw [if_pos hv]
      simp [hv]
    · rw [if_neg hv]
      simp [hv]
  · intro y mo d h mn s ns
    by_cases h1 : dt.is_valid_date y mo d = true <;>
      by_cases h2 : dt.is_valid_time h mn s ns = true <;>
        simp [zuu.DateTime.mk?, dt.Date.mk?, dt.Time.mk?, h1, h2]

/-- C9: `add_days` on a valid date always yields a valid date (year in
[1,9999], real Gregorian triple); when the stepped target index leaves
the representable range [0, maxAbsIdx] — equivalently, when the loop
normalization would produce a year outside [1,9999]
(`semi_valid_iff_range`) — the date is left completely unchanged, and
otherwise the date moves to exactly the target index; in particular
Date(9999,12,31).add_days(1) is a silent no-op. -/
theorem c9_add_days_range_noop :
    (∀ (x : dt.Date) (n : Int), x.valid = true →
      (x.add_days n).valid = true ∧
      (x.absIdx + n < 0 ∨ maxAbsIdx < x.absIdx + n → x.add_days n = x) ∧
      (0 ≤ x.absIdx + n ∧ x.absIdx + n ≤ maxAbsIdx →
        (x.add_days n).absIdx = x.absIdx + n)) ∧
    dt.Date.add_days ⟨9999, 12, 31⟩ 1 = ⟨9999, 12, 31⟩ := by
  refine ⟨?_, by decide⟩
  intro x n hx
  obtain ⟨h1, h2, h3⟩ := add_days_spec x n hx
  exact ⟨h1, h3, h2⟩

/-- Witness for C9 at the upper range boundary. -/
theorem c9_add_days_range_noop_witness :
    dt.Date.valid ⟨9999, 12, 31⟩ = true ∧
    (dt.Date.add_days ⟨9999, 12, 31⟩ 1).valid = true ∧
    dt.Date.add_days ⟨9999, 12, 31⟩ 1 = ⟨9999, 12, 31⟩ :=
  ⟨by decide,
    ((c9_add_days_range_noop.1 ⟨9999, 12, 31⟩ 1 (by decide)).1),
    ((c9_add_days_range_noop.1 ⟨9999, 12, 31⟩ 1 (by decide)).2.1 (Or.inr (by decide)))⟩

/-- The sub-second accessors are untouched by `Time::add_seconds`. -/
theorem add_seconds_preserves_subsecond (t : dt.Time) (s : Int) :
    (t.add_seconds s).nanosecond = t.nanosecond ∧
    (t.add_seconds s).microsecond = t.microsecond ∧
    (t.add_seconds s).millisecond = t.millisecond := by
  unfold dt.Time.nanosecond dt.Time.microsecond dt.Time.millisecond
  rw [Time.add_seconds_nanos]
  simp only [dt.SECONDS_PER_DAY, dt.NANOS_PER_SECOND, dt.NANOS_PER_MICROSECOND,
    dt.NANOS_PER_MILLISECOND]
  refine ⟨?_, ?_, ?_⟩ <;> omega

/-- C10: `Time::add_seconds` (hence `add_minutes` and `add_hours`) leaves
the sub-second part of the elapsed count unchanged — `nanosecond`,
`microsecond` and `millisecond` read the same before and after — and
`DateTime::add_seconds` preserves the time component's nanosecond value
across the day-carry computation. -/
theorem c10_subsecond_frame :
    (∀ (t : dt.Time) (s : Int),
      (t.add_seconds s).nanosecond = t.nanosecond ∧
      (t.add_seconds s).microsecond = t.microsecond ∧
      (t.add_seconds s).millisecond = t.millisecond ∧
      (t.add_minutes s).nanosecond = t.nanosecond ∧
      (t.add_minutes s).microsecond = t.microsecond ∧
      (t.add_minutes s).millisecond = t.millisecond ∧
      (t.add_hours s).nanosecond = t.nanosecond ∧
      (t.add_hours s).microsecond = t.microsecond ∧
      (t.add_hours s).millisecond = t.millisecond) ∧
    (∀ (x : zuu.DateTime) (s : Int), x.time.valid = true →
      (x.add_seconds s).nanosecond = x.time.nanosecond) := by
  constructor
  · intro t s
    obtain ⟨h1, h2, h3⟩ := add_seconds_preserves_subsecond t s
    obtain ⟨m1, m2, m3⟩ :=
      add_seconds_preserves_subsecond t (s * dt.SECONDS_PER_MINUTE)
    obtain ⟨n1, n2, n3⟩ :=
      add_seconds_preserves_subsecond t (s * dt.SECONDS_PER_HOUR)
    exact ⟨h1, h2, h3, m1, m2, m3, n1, n2, n3⟩
  · intro x s ht
    have h2 := (DateTime.add_seconds_parts x s ht).2
    show (x.add_seconds s).time.nanos % dt.NANOS_PER_SECOND =
      x.time.nanos % dt.NANOS_PER_SECOND
    rw [h2]
    simp only [dt.SECONDS_PER_DAY, dt.NANOS_PER_SECOND]
    omega

/-- Witness for C10 at a concrete instant with a nonzero sub-second
part. -/
theorem c10_subsecond_frame_witness :
    (⟨⟨2024, 12, 31⟩, dt.Time.ofHMS 23 30 0 123⟩ : zuu.DateTime).time.valid = true ∧
    (zuu.DateTime.add_seconds
        ⟨⟨2024, 12, 31⟩, dt.Time.ofHMS 23 30 0 123⟩ 7200).nanosecond =
      (⟨⟨2024, 12, 31⟩, dt.Time.ofHMS 23 30 0 123⟩ : zuu.DateTime).time.nanosecond :=
  ⟨by decide,
    c10_subsecond_frame.2 ⟨⟨2024, 12, 31⟩, dt.Time.ofHMS 23 30 0 123⟩ 7200 (by decide)⟩
